import Mathlib

/-!
Verification development for the record/relation mapping core of
`arango_orm` (file `arango_orm/collections.py`).

The Python source is shallowly embedded: Python dicts become association
lists over `String` keys (insertion-ordered, unique keys, exactly as a
Python `dict`), Python attribute namespaces of instances become the same
association lists, raised exceptions become `Except` errors, and the
marshmallow field/schema collaborator (explicitly out of scope in the
design document, which specifies only its `load`/`dump` interface) is
modelled as a `Field` record of a declared default plus a load-side and a
dump-side conversion function.
-/

namespace ArangoOrm

/-- Primitive document values (the payloads a raw mapping carries).
`null` is Python `None`. -/
inductive Value where
  | null : Value
  | str : String → Value
  | int : Int → Value
  | bool : Bool → Value
deriving DecidableEq, Repr

/-- A Python `dict` with `String` keys / an instance attribute namespace:
an insertion-ordered association list. -/
abbrev StrMap (α : Type) : Type := List (String × α)

abbrev Dict := StrMap Value

/-- `d[k]` lookup: first (and, for dicts built by `AL.insert`, only)
occurrence of the key. -/
def AL.get {α : Type} : StrMap α → String → Option α
  | [], _ => none
  | (k', v) :: rest, k => if k' = k then some v else AL.get rest k

/-- `k in d`. -/
def AL.contains {α : Type} (d : StrMap α) (k : String) : Bool :=
  (AL.get d k).isSome

/-- `d[k] = v`: update the existing entry in place (Python dicts keep the
original insertion position on update) or append a new one. -/
def AL.insert {α : Type} : StrMap α → String → α → StrMap α
  | [], k, v => [(k, v)]
  | (k', v') :: rest, k, v =>
    if k' = k then (k', v) :: rest else (k', v') :: AL.insert rest k v

/-- `del d[k]`. -/
def AL.erase {α : Type} : StrMap α → String → StrMap α
  | [], _ => []
  | (k', v') :: rest, k => if k' = k then rest else (k', v') :: AL.erase rest k

/-- `dict(d, **l)` / `d.update(l)`: `d` updated by every entry of `l`. -/
def AL.insertAll {α : Type} (d : StrMap α) (l : StrMap α) : StrMap α :=
  l.foldl (fun acc kv => AL.insert acc kv.1 kv.2) d

def AL.keys {α : Type} (d : StrMap α) : List String := d.map Prod.fst

/-- Well-formedness of a modelled dict: its keys are pairwise distinct
(true of every actual Python dict). -/
def AL.nodup {α : Type} : StrMap α → Bool
  | [] => true
  | (k, _) :: rest => (AL.get rest k).isNone && AL.nodup rest

def optOr {α : Type} : Option α → Option α → Option α
  | some v, _ => some v
  | none, b => b

/-- `k.startswith('_')`. -/
def startsUnderscore (s : String) : Bool :=
  match s.data with
  | c :: _ => c = '_'
  | [] => false

/-- Modelled from the spec: the external field-schema capability
(marshmallow, out of scope for the source) as the design document's
section 4.1 describes it.  A field descriptor declares an optional
default (`fdefault = none` models a field with no declared default,
i.e. marshmallow's `missing`) and a conversion/validation function for
each direction; a failing conversion contributes a per-field error. -/
structure Field where
  fdefault : Option Value
  loadConv : Value → Except String Value
  dumpConv : Value → Except String Value

/-- The class-level data of a record type, as the metaclass and class
bodies of `collections.py` determine it:
`name` is `cls.__name__`; `coll` the `__collection__` class attribute;
`fields` the `_fields` mapping the metaclass computed; `allowExtra` the
`_allow_extra_fields` flag (class default `True`); `safeList` the
`_safe_list` class attribute; `callables` the names `n` with
`n in dir(cls)` and `callable(getattr(cls, n))`. -/
structure RecordClass where
  name : String
  coll : Option String
  fields : StrMap Field
  allowExtra : Bool
  safeList : List String
  callables : List String

/-- `getattr(cls, '_fields', \x7b\x7d)` in `CollectionMeta.__new__`, where
`cls` there is the METACLASS `CollectionMeta` itself, not the class being
created nor one of its bases.  `__new__` assigns the computed `_fields`
onto each newly created class (an instance of the metaclass), never onto
the metaclass, so this lookup never finds anything: it is always the
empty mapping. -/
def metaclassFieldsAttr : StrMap Field := []

/-- `CollectionMeta.__new__`: the field declarations of the class body
(`new_fields`, already popped out of `attrs`) merged over
`getattr(cls, '_fields', \x7b\x7d)` by `dict(getattr(cls, '_fields', \x7b\x7d),
**new_fields)`.  Inherited declarations never appear in `attrs` (a class
body holds only its own), and the first argument is always empty, so the
result is exactly the class's own declarations. -/
def CollectionMeta.newFields (ownFieldDecls : StrMap Field) : StrMap Field :=
  AL.insertAll metaclassFieldsAttr ownFieldDecls

/-- The `_fields` attribute an arbitrary class of the hierarchy ends up
with: every class created through `CollectionMeta` gets `_fields`
assigned by `CollectionMeta.__new__` from its own body, and Python
attribute lookup finds that own assignment first, shadowing any
ancestor's. -/
def classFields (ownFieldDecls : StrMap Field) : StrMap Field :=
  CollectionMeta.newFields ownFieldDecls

/-- `Schema().load(raw)` of the schema built from `fields`: walk the
declared fields in order; a declared field present in `raw` is converted
(a failure is collected into the error mapping); an absent one falls back
to its declared default, or is omitted when it has none.  Undeclared keys
of `raw` are ignored.  Accumulator form: `data` and `errs` carry the
output built so far. -/
def schemaLoadAux (raw : Dict) :
    StrMap Field → Dict → StrMap String → Dict × StrMap String
  | [], data, errs => (data, errs)
  | (n, f) :: rest, data, errs =>
    match AL.get raw n with
    | some v =>
      match f.loadConv v with
      | .ok w => schemaLoadAux raw rest (AL.insert data n w) errs
      | .error e => schemaLoadAux raw rest data (errs ++ [(n, e)])
    | none =>
      match f.fdefault with
      | some d => schemaLoadAux raw rest (AL.insert data n d) errs
      | none => schemaLoadAux raw rest data errs

def schemaLoad (fs : StrMap Field) (raw : Dict) : Dict × StrMap String :=
  schemaLoadAux raw fs [] []

/-- `Schema().dump(obj)`: walk the declared fields in order, reading each
one off the instance's attributes.  A `None` attribute serializes to
`None` (as marshmallow serializes it), any other present value goes
through the dump conversion (a failure is collected), and an absent
attribute falls back to the declared default or is omitted. -/
def schemaDumpAux (attrs : Dict) :
    StrMap Field → Dict → StrMap String → Dict × StrMap String
  | [], data, errs => (data, errs)
  | (n, f) :: rest, data, errs =>
    match AL.get attrs n with
    | some v =>
      if v = .null then schemaDumpAux attrs rest (AL.insert data n .null) errs
      else
        match f.dumpConv v with
        | .ok w => schemaDumpAux attrs rest (AL.insert data n w) errs
        | .error e => schemaDumpAux attrs rest data (errs ++ [(n, e)])
    | none =>
      match f.fdefault with
      | some d => schemaDumpAux attrs rest (AL.insert data n d) errs
      | none => schemaDumpAux attrs rest data errs

def schemaDump (fs : StrMap Field) (attrs : Dict) : Dict × StrMap String :=
  schemaDumpAux attrs fs [] []

/-- The entries load would fill purely from defaults (what
`schemaLoad` produces on a raw mapping containing no declared key). -/
def schemaDefaults : StrMap Field → Dict
  | [] => []
  | (n, f) :: rest =>
    match f.fdefault with
    | some d => (n, d) :: schemaDefaults rest
    | none => schemaDefaults rest

/-- The exceptions the core raises: `MemberExistsException`,
`RuntimeError`, and the `TypeError`/`AttributeError` Python itself raises
on an operation applied to a value of the wrong shape (string
concatenation with `None`, `.split` on a non-string). -/
inductive PyErr where
  | memberExists : String → PyErr
  | runtimeError : String → PyErr
  | typeError : PyErr
deriving DecidableEq, Repr

/-- Rendering of a non-empty per-field error mapping into the message
text; the exact dict-repr formatting Python would produce is abstracted,
what matters is that the per-field errors appear. -/
def errorsRepr (errs : StrMap String) : String :=
  String.intercalate "; " (errs.map (fun e => e.1 ++ ": " ++ e.2))

def loadErrMsg (clsName : String) (errs : StrMap String) : String :=
  "Error loading object of collection " ++ clsName ++ " - " ++ errorsRepr errs

def relLoadErrMsg (clsName : String) (errs : StrMap String) : String :=
  "Error loading object of relation " ++ clsName ++ " - " ++ errorsRepr errs

def dumpErrMsg (clsName : String) (errs : StrMap String) : String :=
  "Error dumping object of collection " ++ clsName ++ " - " ++ errorsRepr errs

def memberMsg (k : String) (clsName : String) : String :=
  k ++ " is already a member of " ++ clsName ++
    " instance and cannot be overwritten"

/-- Lines 99-102 / 220-223: copy every key of `in_dict` that is not in
`data` and does not start with an underscore verbatim into `data`. -/
def extrasLoadAux : Dict → Dict → Dict
  | [], data => data
  | (k, v) :: rest, data =>
    if ¬ AL.contains data k ∧ ¬ startsUnderscore k then
      extrasLoadAux rest (AL.insert data k v)
    else
      extrasLoadAux rest data

/-- Lines 114-120 / 232-238: assign every key/value of `data` onto the
new instance, raising `MemberExistsException` when a key is in the
class's `_safe_list` or is the name of a callable member of the class. -/
def assignAll (c : RecordClass) : Dict → Dict → Except PyErr Dict
  | attrs, [] => .ok attrs
  | attrs, (k, v) :: rest =>
    if k ∈ c.safeList ∨ k ∈ c.callables then
      .error (.memberExists (memberMsg k c.name))
    else
      assignAll c (AL.insert attrs k v) rest

/-- `in_dict['_id'].split('/')[0]`. -/
def idHead (s : String) : String := (s.splitOn "/").headD ""

/-- Lines 66-68: the per-field part of `__init__`: each declared field is
set to the caller-supplied value, else its default, else `None`
(`None if field.default is missing else field.default`). -/
def fieldDefaultsAux (kwargs : Dict) : StrMap Field → Dict → Dict
  | [], attrs => attrs
  | (n, f) :: rest, attrs =>
    fieldDefaultsAux kwargs rest
      (AL.insert attrs n ((AL.get kwargs n).getD ((f.fdefault).getD .null)))

/-- Keys of `kwargs` left after the field loop popped the declared field
names (line 68 `kwargs.pop`), in their original order. -/
def kwargsRest (c : RecordClass) (kwargs : Dict) : Dict :=
  kwargs.filter (fun kv => ¬ AL.contains c.fields kv.1)

/-- `Collection.__init__(collection_name=None, **kwargs)`, lines 58-72:
`_key` is set to `None` unless supplied, each declared field to its
supplied value or default, and every remaining keyword argument is set
verbatim (`collection_name` is `None` in every flow modelled here, so no
instance `__collection__` is set). -/
def Collection.initKw (c : RecordClass) (kwargs : Dict) : Dict :=
  let a0 : Dict := if AL.contains kwargs "_key" then [] else [("_key", .null)]
  let a1 := fieldDefaultsAux kwargs c.fields a0
  AL.insertAll a1 (kwargsRest c kwargs)

/-- `cls()` as `_load` invokes it: no keyword arguments at all. -/
def Collection.init (c : RecordClass) : Dict :=
  Collection.initKw c []

/-- `Relation.__init__`, lines 174-191, with no keyword arguments (the
`_load` path): seeds `_collections_from`, `_collections_to`, `_from`,
`_to`, `_object_from`, `_object_to` to `None`, then runs the base
`__init__`. -/
def Relation.init (c : RecordClass) : Dict :=
  let a0 : Dict :=
    [("_collections_from", .null), ("_collections_to", .null),
     ("_from", .null), ("_to", .null),
     ("_object_from", .null), ("_object_to", .null)]
  let a1 := AL.insert a0 "_key" .null
  fieldDefaultsAux [] c.fields a1

/-- The class attributes visible through `dir` beside the methods; all
underscore-prefixed, so the dump extras loop always skips them. -/
def classAttrNames : List String :=
  ["__collection__", "_key_field", "_allow_extra_fields",
   "_collection_config", "_safe_list", "_fields"]

/-- Removal of duplicate names before sorting (what a set-union of the
namespaces amounts to); keeps the first occurrence. -/
def dedupStr : List String → List String
  | [] => []
  | a :: rest => if a ∈ rest then dedupStr rest else a :: dedupStr rest

/-- Lexicographic byte order on strings (the order `sorted`/`dir` uses);
structural so that concrete evaluations reduce. -/
def charListLe : List Char → List Char → Bool
  | [], _ => true
  | _ :: _, [] => false
  | a :: as, b :: bs =>
    if a.toNat < b.toNat then true
    else if b.toNat < a.toNat then false
    else charListLe as bs

def strLe (a b : String) : Bool := charListLe a.data b.data

def insertSorted (a : String) : List String → List String
  | [] => [a]
  | b :: rest => if strLe a b then a :: b :: rest else b :: insertSorted a rest

def sortStrings : List String → List String
  | [] => []
  | a :: rest => insertSorted a (sortStrings rest)

/-- `dir(self)`: the sorted names of the instance's attributes and of the
class's members. -/
def dirList (c : RecordClass) (attrs : Dict) : List String :=
  sortStrings (dedupStr (AL.keys attrs ++ c.callables ++ classAttrNames))

/-- `callable(getattr(self, p))`: an instance attribute (always a data
value here) is never callable; otherwise the lookup falls through to the
class, where exactly the `callables` members are callable. -/
def isCallableAttr (c : RecordClass) (attrs : Dict) (p : String) : Bool :=
  ¬ AL.contains attrs p ∧ p ∈ c.callables

/-- Lines 150-155: for every name in `dir(self)` that is not already in
`data`, not callable, and not underscore-prefixed, copy the attribute
verbatim into `data`.  A name that is neither an instance attribute nor
callable is a (non-callable) class attribute; all of those are
underscore-prefixed, and the model copies nothing for them. -/
def dumpExtrasAux (c : RecordClass) (attrs : Dict) :
    List String → Dict → Dict
  | [], data => data
  | p :: rest, data =>
    if AL.contains data p then dumpExtrasAux c attrs rest data
    else if isCallableAttr c attrs p then dumpExtrasAux c attrs rest data
    else if startsUnderscore p then dumpExtrasAux c attrs rest data
    else
      match AL.get attrs p with
      | some v => dumpExtrasAux c attrs rest (AL.insert data p v)
      | none => dumpExtrasAux c attrs rest data

/-- Lines 143-144 of `Collection._dump`: add the instance's `_key` when
the schema output lacks one and the instance has one (`hasattr` holding
exactly when the attribute lookup succeeds). -/
def keyAdd (attrs data0 : Dict) : Dict :=
  if AL.contains data0 "_key" then data0
  else
    match AL.get attrs "_key" with
    | some v => AL.insert data0 "_key" v
    | none => data0

/-- Lines 146-147 of `Collection._dump`: delete an explicitly-`None`
`_key`. -/
def keyDelNull (data1 : Dict) : Dict :=
  if AL.get data1 "_key" = some .null then AL.erase data1 "_key" else data1

/-- Lines 143-147 of `Collection._dump`: both `_key` fixups in order. -/
def keyFixup (attrs data0 : Dict) : Dict := keyDelNull (keyAdd attrs data0)

/-- The error-free tail of `Collection._dump` (lines 143-157): the
`_key` fixups, then (when extra fields are allowed) the extras loop over
`dir(self)`. -/
def Collection.dumpBody (c : RecordClass) (attrs : Dict) : Dict :=
  let data2 := keyFixup attrs (schemaDump c.fields attrs).1
  if c.allowExtra then dumpExtrasAux c attrs (dirList c attrs) data2
  else data2

/-- `Collection._dump`, lines 133-157: schema dump (non-empty errors are
fatal), then the `_key` fixups and the extras loop of
`Collection.dumpBody`. -/
def Collection.dump (c : RecordClass) (attrs : Dict) : Except PyErr Dict :=
  if (schemaDump c.fields attrs).2 ≠ [] then
    .error (.runtimeError (dumpErrMsg c.name (schemaDump c.fields attrs).2))
  else .ok (Collection.dumpBody c attrs)

/-- Line 106-109: the `_db` back-reference attached to the new instance:
the explicit `db` argument when given (and truthy), else
`getattr(instance, '_db', None)`. -/
def dbValue (db : Option Value) (inst : Option Dict) : Value :=
  match db with
  | some v => v
  | none =>
    match inst with
    | some ia => (AL.get ia "_db").getD .null
    | none => .null

/-- Lines 122-123: assign `_key` from `in_dict` when the new instance
does not yet have one.  (`cls()` always presets `_key`, so the guard's
`not hasattr` side can only hold when a hook removed the attribute; for
the hook-less types modelled here it never fires.) -/
def keyGuard (inDict obj2 : Dict) : Dict :=
  if AL.contains inDict "_key" ∧ ¬ AL.contains obj2 "_key" then
    match AL.get inDict "_key" with
    | some v => AL.insert obj2 "_key" v
    | none => obj2
  else obj2

/-- `Collection._load` after the optional instance merge (lines 93-131):
schema load (non-empty errors are fatal), extra-field copying, fresh
instance construction, `_db` attachment (`dbv` is the value the `db or
instance` logic produced), the checked assignment loop, the dead `_key`
guard, and the `_id`-driven collection override.  The modelled record
types declare no `_pre_process`/`_post_process` hooks, so the two
`hasattr`-guarded hook calls are skipped exactly as in Python. -/
def Collection.loadCore (c : RecordClass) (inDict : Dict) (dbv : Value) :
    Except PyErr Dict :=
  let le := schemaLoad c.fields inDict
  if le.2 ≠ [] then .error (.runtimeError (loadErrMsg c.name le.2))
  else
    let data := if c.allowExtra then extrasLoadAux inDict le.1 else le.1
    let obj1 := AL.insert (Collection.init c) "_db" dbv
    match assignAll c obj1 data with
    | .error e => .error e
    | .ok obj2 =>
      let obj3 := keyGuard inDict obj2
      match AL.get inDict "_id" with
      | some (.str s) =>
        .ok (AL.insert obj3 "__collection__" (.str (idHead s)))
      | some _ => .error .typeError
      | none => .ok obj3

/-- `Collection._load(in_dict, instance=None, db=None)`, lines 88-131:
merge `instance._dump()` under `in_dict` when an instance is given (a
dump failure propagates), then run the core of the algorithm. -/
def Collection.load (c : RecordClass) (inDict0 : Dict) (inst : Option Dict)
    (db : Option Value) : Except PyErr Dict :=
  match inst with
  | some ia =>
    match Collection.dump c ia with
    | .ok d => Collection.loadCore c (AL.insertAll d inDict0) (dbValue db inst)
    | .error e => .error e
  | none => Collection.loadCore c inDict0 (dbValue db none)

/-- The `__collection__` the instance sees: its own attribute when
`_load` assigned one from `_id`, else the class attribute. -/
def effCollection (c : RecordClass) (attrs : Dict) : Option String :=
  match AL.get attrs "__collection__" with
  | some (.str s) => some s
  | some _ => none
  | none => c.coll

/-- The `_id` property, lines 159-164: `__collection__ + '/' + _key` when
the instance has a non-`None` `_key`, else `None`.  A non-string `_key`
or a missing collection name would make the Python concatenation raise
`TypeError`. -/
def Collection.idProp (c : RecordClass) (attrs : Dict) :
    Except PyErr (Option Value) :=
  match AL.get attrs "_key" with
  | none => .ok none
  | some .null => .ok none
  | some (.str k) =>
    match effCollection c attrs with
    | some cn => .ok (some (.str (cn ++ "/" ++ k)))
    | none => .error .typeError
  | some _ => .error .typeError

/-- One endpoint step of `Relation._dump` (lines 259-260 and 262-263):
add `attrs`' value for `name` to `data` when `data` lacks the key and
the instance has the attribute (`hasattr` holding exactly when the
attribute lookup succeeds). -/
def addEndpoint (name : String) (attrs data : Dict) : Dict :=
  if AL.contains data name then data
  else
    match AL.get attrs name with
    | some v => AL.insert data name v
    | none => data

/-- Lines 259-263 of `Relation._dump`: `_from` and then `_to` are added
to the base dump's output whenever the instance has them and the output
lacks them. -/
def Relation.dumpFromTo (attrs data : Dict) : Dict :=
  addEndpoint "_to" attrs (addEndpoint "_from" attrs data)

/-- `Relation._dump`, lines 254-265: the base dump, then the endpoint
additions of `Relation.dumpFromTo`. -/
def Relation.dump (c : RecordClass) (attrs : Dict) : Except PyErr Dict :=
  match Collection.dump c attrs with
  | .error e => .error e
  | .ok data => .ok (Relation.dumpFromTo attrs data)

/-- Lines 246-250 of `Relation._load`: the endpoints are copied verbatim
onto the new instance from `in_dict` whenever present there. -/
def Relation.loadFromTo (inDict obj : Dict) : Dict :=
  let obj5 :=
    match AL.get inDict "_from" with
    | some v => AL.insert obj "_from" v
    | none => obj
  match AL.get inDict "_to" with
  | some v => AL.insert obj5 "_to" v
  | none => obj5

/-- `Relation._load` after the optional instance merge, lines 214-252:
the base algorithm (with `Relation.__init__` seeding the endpoint
attributes, the relation's own `_safe_list`, no hook calls, and the
"relation" wording in the load error message), then the endpoint copying
of `Relation.loadFromTo`. -/
def Relation.loadCore (c : RecordClass) (inDict : Dict) (dbv : Value) :
    Except PyErr Dict :=
  let le := schemaLoad c.fields inDict
  if le.2 ≠ [] then .error (.runtimeError (relLoadErrMsg c.name le.2))
  else
    let data := if c.allowExtra then extrasLoadAux inDict le.1 else le.1
    let obj1 := AL.insert (Relation.init c) "_db" dbv
    match assignAll c obj1 data with
    | .error e => .error e
    | .ok obj2 =>
      let obj3 := keyGuard inDict obj2
      match AL.get inDict "_id" with
      | some (.str s) =>
        .ok (Relation.loadFromTo inDict
          (AL.insert obj3 "__collection__" (.str (idHead s))))
      | some _ => .error .typeError
      | none => .ok (Relation.loadFromTo inDict obj3)

/-- `Relation._load(in_dict, instance=None, db=None)`, lines 207-252:
merge `instance._dump()` under `in_dict` when an instance is given, then
run the relation core. -/
def Relation.load (c : RecordClass) (inDict0 : Dict) (inst : Option Dict)
    (db : Option Value) : Except PyErr Dict :=
  match inst with
  | some ia =>
    match Relation.dump c ia with
    | .ok d => Relation.loadCore c (AL.insertAll d inDict0) (dbValue db inst)
    | .error e => .error e
  | none => Relation.loadCore c inDict0 (dbValue db none)

/-- `_load` immediately followed by `_dump` on the result (the round-trip
the testable properties of the design document are about). -/
def loadDump (c : RecordClass) (m : Dict) : Except PyErr Dict :=
  match Collection.load c m none none with
  | .ok a => Collection.dump c a
  | .error e => .error e

def relLoadDump (c : RecordClass) (m : Dict) : Except PyErr Dict :=
  match Relation.load c m none none with
  | .ok a => Relation.dump c a
  | .error e => .error e

/-- Whether a result is the aggregated schema-error condition
(`RuntimeError` in the source), as opposed to success, a naming
conflict, or a type error. -/
def isRuntimeError {α : Type} : Except PyErr α → Bool
  | .error (.runtimeError _) => true
  | _ => false

/-! ### Concrete record types used as witnesses and counterexamples -/

/-- A pass-through field (marshmallow `fields.Raw`): no declared default,
both conversions accept every value unchanged. -/
def freeField : Field where
  fdefault := none
  loadConv := fun v => .ok v
  dumpConv := fun v => .ok v

/-- A string field (marshmallow `fields.String`): load validation rejects
non-strings, dump serialization passes the value through. -/
def strField : Field where
  fdefault := none
  loadConv := fun v => match v with
    | .str s => .ok (.str s)
    | _ => .error "Not a valid string."
  dumpConv := fun v => .ok v

/-- A string field that also rejects non-strings on dump (the
capability's dump direction may report errors per the interface
contract). -/
def pickyField : Field where
  fdefault := none
  loadConv := fun v => match v with
    | .str s => .ok (.str s)
    | _ => .error "Not a valid string."
  dumpConv := fun v => match v with
    | .str s => .ok (.str s)
    | _ => .error "Not a valid string."

/-- An integer field. -/
def intField : Field where
  fdefault := none
  loadConv := fun v => match v with
    | .int n => .ok (.int n)
    | _ => .error "Not a valid integer."
  dumpConv := fun v => .ok v

/-- `Collection._safe_list`, lines 52-56. -/
def collectionSafeList : List String :=
  ["__collection__", "_safe_list", "_relations", "_id", "_index",
   "_collection_config", "_post_process", "_pre_process", "_fields_info",
   "_fields"]

/-- `Relation._safe_list`, lines 169-172. -/
def relationSafeList : List String :=
  ["__collection__", "_safe_list", "_id", "_collections_from",
   "_collections_to", "_object_from", "_object_to", "_index",
   "_collection_config", "_fields"]

/-- The callable members a plain `Collection` subclass has: its methods
(`schema` is the one not underscore-prefixed) plus the inherited object
dunders (abridged to a representative set: every remaining dunder is
underscore-prefixed and behaves identically in every check the code
performs on callables). -/
def collectionCallables : List String :=
  ["schema", "_load", "_dump", "__init__", "__str__", "__repr__",
   "__new__", "__eq__", "__ne__", "__hash__", "__class__",
   "__setattr__", "__getattribute__", "__reduce__", "__sizeof__"]

/-- `class Person(Collection): name = String()` declared with
`__collection__ = 'persons'`. -/
def personOwnFields : StrMap Field := [("name", strField)]

def personClass : RecordClass where
  name := "Person"
  coll := some "persons"
  fields := classFields personOwnFields
  allowExtra := true
  safeList := collectionSafeList
  callables := collectionCallables

/-- `class Student(Person): grade = Integer()`: the subtype's own
declarations as its class body provides them to the metaclass. -/
def studentOwnFields : StrMap Field := [("grade", intField)]

/-- Like `Person` but with a pass-through (`Raw`) field, so load performs
no conversion at all. -/
def personR : RecordClass where
  name := "PersonR"
  coll := some "persons"
  fields := classFields [("name", freeField)]
  allowExtra := true
  safeList := collectionSafeList
  callables := collectionCallables

/-- Like `Person` but the field also validates on dump. -/
def pickyClass : RecordClass where
  name := "Picky"
  coll := some "persons"
  fields := classFields [("name", pickyField)]
  allowExtra := true
  safeList := collectionSafeList
  callables := collectionCallables

/-- `Person` with `_allow_extra_fields = False`. -/
def personNX : RecordClass where
  name := "PersonNX"
  coll := some "persons"
  fields := classFields personOwnFields
  allowExtra := false
  safeList := collectionSafeList
  callables := collectionCallables

/-- `class Likes(Relation)` with no declared fields,
`__collection__ = 'likes'`. -/
def likesClass : RecordClass where
  name := "Likes"
  coll := some "likes"
  fields := classFields []
  allowExtra := true
  safeList := relationSafeList
  callables := collectionCallables

/-! ### Dictionary lemmas -/

theorem AL.get_insert_self {α : Type} (d : StrMap α) (k : String) (v : α) :
    AL.get (AL.insert d k v) k = some v := by
  induction d with
  | nil => simp [AL.insert, AL.get]
  | cons kv rest ih =>
    by_cases h : kv.1 = k
    · simp [AL.insert, AL.get, h]
    · simp [AL.insert, AL.get, h, ih]

theorem AL.get_insert_ne {α : Type} (d : StrMap α) (k k' : String) (v : α)
    (h : k' ≠ k) : AL.get (AL.insert d k v) k' = AL.get d k' := by
  induction d with
  | nil => simp [AL.insert, AL.get, Ne.symm h]
  | cons kv rest ih =>
    by_cases h1 : kv.1 = k
    · subst h1
      simp [AL.insert, AL.get, Ne.symm h]
    · simp [AL.insert, AL.get, h1, ih]

theorem AL.get_erase_ne {α : Type} (d : StrMap α) (k k' : String)
    (h : k' ≠ k) : AL.get (AL.erase d k) k' = AL.get d k' := by
  induction d with
  | nil => simp [AL.erase]
  | cons kv rest ih =>
    by_cases h1 : kv.1 = k
    · subst h1
      simp [AL.erase, AL.get, Ne.symm h]
    · simp [AL.erase, AL.get, h1, ih]

theorem AL.get_eq_none_iff {α : Type} (d : StrMap α) (k : String) :
    AL.get d k = none ↔ k ∉ AL.keys d := by
  induction d with
  | nil => simp [AL.get, AL.keys]
  | cons kv rest ih =>
    by_cases h : kv.1 = k
    · simp [AL.get, AL.keys, h]
    · simp [AL.get, AL.keys, h, ih, Ne.symm h]

theorem AL.contains_true_iff {α : Type} (d : StrMap α) (k : String) :
    AL.contains d k = true ↔ ∃ v, AL.get d k = some v := by
  unfold AL.contains
  rcases AL.get d k with _ | v <;> simp

theorem AL.mem_keys_of_get {α : Type} {d : StrMap α} {k : String} {v : α}
    (h : AL.get d k = some v) : k ∈ AL.keys d := by
  induction d with
  | nil => simp [AL.get] at h
  | cons kv rest ih =>
    unfold AL.get at h
    by_cases h1 : kv.1 = k
    · subst h1
      simp [AL.keys]
    · simp [h1] at h
      simpa [AL.keys] using Or.inr (ih h)

theorem AL.get_erase_self {α : Type} (d : StrMap α) (k : String)
    (h : AL.nodup d = true) : AL.get (AL.erase d k) k = none := by
  induction d with
  | nil => simp [AL.erase, AL.get]
  | cons kv rest ih =>
    obtain ⟨k1, v1⟩ := kv
    simp [AL.nodup, Option.isNone_iff_eq_none] at h
    by_cases h1 : k1 = k
    · subst h1
      simpa [AL.erase] using h.1
    · simp [AL.erase, AL.get, h1]
      exact ih h.2

theorem AL.nodup_insert {α : Type} (d : StrMap α) (k : String) (v : α)
    (h : AL.nodup d = true) : AL.nodup (AL.insert d k v) = true := by
  induction d with
  | nil => simp [AL.insert, AL.nodup, AL.get]
  | cons kv rest ih =>
    obtain ⟨k1, v1⟩ := kv
    simp [AL.nodup, Option.isNone_iff_eq_none] at h
    by_cases h1 : k1 = k
    · subst h1
      simp [AL.insert, AL.nodup, Option.isNone_iff_eq_none]
      exact ⟨h.1, h.2⟩
    · simp [AL.insert, h1, AL.nodup, Option.isNone_iff_eq_none]
      refine ⟨?_, ih h.2⟩
      rw [AL.get_insert_ne rest k k1 v h1]
      exact h.1

theorem AL.nodup_erase {α : Type} (d : StrMap α) (k : String)
    (h : AL.nodup d = true) : AL.nodup (AL.erase d k) = true := by
  induction d with
  | nil => simp [AL.erase, AL.nodup]
  | cons kv rest ih =>
    obtain ⟨k1, v1⟩ := kv
    simp [AL.nodup, Option.isNone_iff_eq_none] at h
    by_cases h1 : k1 = k
    · subst h1
      simpa [AL.erase] using h.2
    · simp [AL.erase, h1, AL.nodup, Option.isNone_iff_eq_none]
      refine ⟨?_, ih h.2⟩
      rw [AL.get_erase_ne rest k k1 h1]
      exact h.1

theorem AL.get_insertAll {α : Type} (d l : StrMap α) (k : String)
    (h : AL.nodup l = true) :
    AL.get (AL.insertAll d l) k = optOr (AL.get l k) (AL.get d k) := by
  induction l generalizing d with
  | nil => simp [AL.insertAll, AL.get, optOr]
  | cons kv rest ih =>
    obtain ⟨k1, v1⟩ := kv
    simp [AL.nodup, Option.isNone_iff_eq_none] at h
    have step : AL.insertAll d ((k1, v1) :: rest) =
        AL.insertAll (AL.insert d k1 v1) rest := rfl
    rw [step, ih (AL.insert d k1 v1) h.2]
    by_cases h1 : k1 = k
    · subst h1
      simp [AL.get, h.1, optOr, AL.get_insert_self]
    · simp [AL.get, h1, AL.get_insert_ne d k1 k v1 (Ne.symm h1)]

theorem AL.contains_false_iff {α : Type} (d : StrMap α) (k : String) :
    AL.contains d k = false ↔ AL.get d k = none := by
  unfold AL.contains
  rcases AL.get d k with _ | v <;> simp

theorem AL.insert_of_not_contains {α : Type} (d : StrMap α) (k : String)
    (v : α) (h : AL.contains d k = false) :
    AL.insert d k v = d ++ [(k, v)] := by
  rw [AL.contains_false_iff] at h
  induction d with
  | nil => simp [AL.insert]
  | cons kv rest ih =>
    unfold AL.get at h
    by_cases h1 : kv.1 = k
    · simp [h1] at h
    · simp [h1] at h
      simp [AL.insert, h1, ih h]

theorem AL.get_append {α : Type} (d1 d2 : StrMap α) (k : String) :
    AL.get (d1 ++ d2) k = optOr (AL.get d1 k) (AL.get d2 k) := by
  induction d1 with
  | nil => simp [AL.get, optOr]
  | cons kv rest ih =>
    by_cases h : kv.1 = k
    · simp [AL.get, h, optOr]
    · simp [AL.get, h, ih]

theorem AL.ne_of_get_none {α : Type} {d : StrMap α} {k : String}
    (h : AL.get d k = none) {kv : String × α} (hm : kv ∈ d) : kv.1 ≠ k := by
  intro he
  have hmem : kv.1 ∈ AL.keys d := List.mem_map_of_mem Prod.fst hm
  rw [AL.get_eq_none_iff] at h
  rw [he] at hmem
  exact h hmem

theorem AL.contains_insert_self {α : Type} (d : StrMap α) (k : String)
    (v : α) : AL.contains (AL.insert d k v) k = true := by
  unfold AL.contains
  rw [AL.get_insert_self]
  rfl

theorem AL.contains_insert_ne {α : Type} (d : StrMap α) (k k' : String)
    (v : α) (h : k' ≠ k) :
    AL.contains (AL.insert d k v) k' = AL.contains d k' := by
  unfold AL.contains
  rw [AL.get_insert_ne d k k' v h]

/-! ### Schema capability lemmas -/

theorem schemaLoadAux_get_unmem (raw : Dict) (fs : StrMap Field)
    (data : Dict) (errs : StrMap String) (k : String)
    (h : AL.get fs k = none) :
    AL.get (schemaLoadAux raw fs data errs).1 k = AL.get data k := by
  induction fs generalizing data errs with
  | nil => rfl
  | cons nf rest ih =>
    obtain ⟨n, f⟩ := nf
    unfold AL.get at h
    by_cases h1 : n = k
    · simp [h1] at h
    · rw [if_neg h1] at h
      simp only [schemaLoadAux]
      split
      · split
        · rw [ih _ errs h, AL.get_insert_ne data n k _ (Ne.symm h1)]
        · exact ih data _ h
      · split
        · rw [ih _ errs h, AL.get_insert_ne data n k _ (Ne.symm h1)]
        · exact ih data errs h

theorem schemaLoadAux_get_mem (raw : Dict) (fs : StrMap Field)
    (data : Dict) (errs : StrMap String) (n : String) (f : Field)
    (hnd : AL.nodup fs = true) (hf : AL.get fs n = some f) :
    AL.get (schemaLoadAux raw fs data errs).1 n =
      (match AL.get raw n with
      | some v =>
        match f.loadConv v with
        | .ok w => some w
        | .error _ => AL.get data n
      | none =>
        match f.fdefault with
        | some d => some d
        | none => AL.get data n) := by
  induction fs generalizing data errs with
  | nil => cases hf
  | cons nf rest ih =>
    obtain ⟨n1, f1⟩ := nf
    simp only [AL.nodup, Bool.and_eq_true, Option.isNone_iff_eq_none] at hnd
    unfold AL.get at hf
    by_cases h1 : n1 = n
    · rw [if_pos h1] at hf
      injection hf with hf
      subst hf
      subst h1
      simp only [schemaLoadAux]
      split
      · split
        · rw [schemaLoadAux_get_unmem raw rest _ errs n1 hnd.1,
            AL.get_insert_self]
        · rw [schemaLoadAux_get_unmem raw rest data _ n1 hnd.1]
      · split
        · rw [schemaLoadAux_get_unmem raw rest _ errs n1 hnd.1,
            AL.get_insert_self]
        · rw [schemaLoadAux_get_unmem raw rest data errs n1 hnd.1]
    · rw [if_neg h1] at hf
      simp only [schemaLoadAux]
      split
      · split
        · rw [ih _ errs hnd.2 hf,
            AL.get_insert_ne data n1 n _ (Ne.symm h1)]
        · exact ih data _ hnd.2 hf
      · split
        · rw [ih _ errs hnd.2 hf,
            AL.get_insert_ne data n1 n _ (Ne.symm h1)]
        · exact ih data errs hnd.2 hf

theorem schemaDumpAux_get_unmem (attrs : Dict) (fs : StrMap Field)
    (data : Dict) (errs : StrMap String) (k : String)
    (h : AL.get fs k = none) :
    AL.get (schemaDumpAux attrs fs data errs).1 k = AL.get data k := by
  induction fs generalizing data errs with
  | nil => rfl
  | cons nf rest ih =>
    obtain ⟨n, f⟩ := nf
    unfold AL.get at h
    by_cases h1 : n = k
    · simp [h1] at h
    · rw [if_neg h1] at h
      simp only [schemaDumpAux]
      split
      · split
        · rw [ih _ errs h, AL.get_insert_ne data n k _ (Ne.symm h1)]
        · split
          · rw [ih _ errs h, AL.get_insert_ne data n k _ (Ne.symm h1)]
          · exact ih data _ h
      · split
        · rw [ih _ errs h, AL.get_insert_ne data n k _ (Ne.symm h1)]
        · exact ih data errs h

theorem schemaDumpAux_get_mem (attrs : Dict) (fs : StrMap Field)
    (data : Dict) (errs : StrMap String) (n : String) (f : Field)
    (hnd : AL.nodup fs = true) (hf : AL.get fs n = some f) :
    AL.get (schemaDumpAux attrs fs data errs).1 n =
      (match AL.get attrs n with
      | some v =>
        if v = .null then some .null
        else
          match f.dumpConv v with
          | .ok w => some w
          | .error _ => AL.get data n
      | none =>
        match f.fdefault with
        | some d => some d
        | none => AL.get data n) := by
  induction fs generalizing data errs with
  | nil => cases hf
  | cons nf rest ih =>
    obtain ⟨n1, f1⟩ := nf
    simp only [AL.nodup, Bool.and_eq_true, Option.isNone_iff_eq_none] at hnd
    unfold AL.get at hf
    by_cases h1 : n1 = n
    · rw [if_pos h1] at hf
      injection hf with hf
      subst hf
      subst h1
      simp only [schemaDumpAux]
      split
      · split
        · rw [schemaDumpAux_get_unmem attrs rest _ errs n1 hnd.1,
            AL.get_insert_self]
        · split
          · rw [schemaDumpAux_get_unmem attrs rest _ errs n1 hnd.1,
              AL.get_insert_self]
          · rw [schemaDumpAux_get_unmem attrs rest data _ n1 hnd.1]
      · split
        · rw [schemaDumpAux_get_unmem attrs rest _ errs n1 hnd.1,
            AL.get_insert_self]
        · rw [schemaDumpAux_get_unmem attrs rest data errs n1 hnd.1]
    · rw [if_neg h1] at hf
      simp only [schemaDumpAux]
      split
      · split
        · rw [ih _ errs hnd.2 hf,
            AL.get_insert_ne data n1 n _ (Ne.symm h1)]
        · split
          · rw [ih _ errs hnd.2 hf,
              AL.get_insert_ne data n1 n _ (Ne.symm h1)]
          · exact ih data _ hnd.2 hf
      · split
        · rw [ih _ errs hnd.2 hf,
            AL.get_insert_ne data n1 n _ (Ne.symm h1)]
        · exact ih data errs hnd.2 hf

theorem schemaDumpAux_errs_nil (attrs : Dict) (fs : StrMap Field)
    (data : Dict) (errs : StrMap String)
    (h : (schemaDumpAux attrs fs data errs).2 = []) :
    errs = [] ∧ ∀ nf ∈ fs, ∀ v, AL.get attrs nf.1 = some v → v ≠ .null →
      ∃ w, nf.2.dumpConv v = Except.ok w := by
  induction fs generalizing data errs with
  | nil =>
    refine ⟨h, ?_⟩
    intro nf hm
    cases hm
  | cons nf rest ih =>
    obtain ⟨n1, f1⟩ := nf
    simp only [schemaDumpAux] at h
    split at h
    case h_1 v hr =>
      by_cases hn : v = Value.null
      · rw [if_pos hn] at h
        obtain ⟨he, hrest⟩ := ih _ _ h
        refine ⟨he, ?_⟩
        intro nf2 hm v2 hv2 hnn
        rcases List.mem_cons.mp hm with h2 | h2
        · rw [h2] at hv2
          simp only at hv2
          rw [hv2] at hr
          injection hr with hr
          rw [← hr] at hn
          exact absurd hn hnn
        · exact hrest nf2 h2 v2 hv2 hnn
      · rw [if_neg hn] at h
        split at h
        next w hc =>
          obtain ⟨he, hrest⟩ := ih _ _ h
          refine ⟨he, ?_⟩
          intro nf2 hm v2 hv2 hnn
          rcases List.mem_cons.mp hm with h2 | h2
          · rw [h2] at hv2
            simp only at hv2
            rw [hv2] at hr
            injection hr with hr
            rw [h2]
            subst hr
            exact ⟨w, hc⟩
          · exact hrest nf2 h2 v2 hv2 hnn
        next e hc =>
          obtain ⟨he, _⟩ := ih _ _ h
          exact absurd he (by simp)
    case h_2 hr =>
      split at h
      all_goals obtain ⟨he, hrest⟩ := ih _ _ h
      all_goals refine ⟨he, ?_⟩
      all_goals intro nf2 hm v2 hv2 hnn
      all_goals rcases List.mem_cons.mp hm with h2 | h2
      · rw [h2] at hv2
        simp only at hv2
        rw [hv2] at hr
        cases hr
      · exact hrest nf2 h2 v2 hv2 hnn
      · rw [h2] at hv2
        simp only at hv2
        rw [hv2] at hr
        cases hr
      · exact hrest nf2 h2 v2 hv2 hnn

theorem schemaLoadAux_nodup (raw : Dict) (fs : StrMap Field) (data : Dict)
    (errs : StrMap String) (h : AL.nodup data = true) :
    AL.nodup (schemaLoadAux raw fs data errs).1 = true := by
  induction fs generalizing data errs with
  | nil => exact h
  | cons nf rest ih =>
    obtain ⟨n, f⟩ := nf
    simp only [schemaLoadAux]
    split
    · split
      · exact ih _ errs (AL.nodup_insert data n _ h)
      · exact ih data _ h
    · split
      · exact ih _ errs (AL.nodup_insert data n _ h)
      · exact ih data errs h

theorem schemaDumpAux_nodup (attrs : Dict) (fs : StrMap Field) (data : Dict)
    (errs : StrMap String) (h : AL.nodup data = true) :
    AL.nodup (schemaDumpAux attrs fs data errs).1 = true := by
  induction fs generalizing data errs with
  | nil => exact h
  | cons nf rest ih =>
    obtain ⟨n, f⟩ := nf
    simp only [schemaDumpAux]
    split
    · split
      · exact ih _ errs (AL.nodup_insert data n _ h)
      · split
        · exact ih _ errs (AL.nodup_insert data n _ h)
        · exact ih data _ h
    · split
      · exact ih _ errs (AL.nodup_insert data n _ h)
      · exact ih data errs h

theorem extrasLoadAux_nodup (l data : Dict) (h : AL.nodup data = true) :
    AL.nodup (extrasLoadAux l data) = true := by
  induction l generalizing data with
  | nil => exact h
  | cons kv rest ih =>
    obtain ⟨k1, v1⟩ := kv
    simp only [extrasLoadAux]
    split
    · exact ih _ (AL.nodup_insert data k1 v1 h)
    · exact ih data h

theorem schemaLoadAux_absent (raw : Dict) (fs : StrMap Field) (data : Dict)
    (errs : StrMap String) (hnd : AL.nodup fs = true)
    (habs : ∀ nf ∈ fs, AL.get raw nf.1 = none)
    (hdis : ∀ nf ∈ fs, AL.contains data nf.1 = false) :
    schemaLoadAux raw fs data errs = (data ++ schemaDefaults fs, errs) := by
  induction fs generalizing data with
  | nil => simp [schemaLoadAux, schemaDefaults]
  | cons nf rest ih =>
    obtain ⟨n, f⟩ := nf
    simp only [AL.nodup, Bool.and_eq_true, Option.isNone_iff_eq_none] at hnd
    have hr : AL.get raw n = none := habs (n, f) (List.mem_cons_self _ _)
    simp only [schemaLoadAux]
    split
    next v hv =>
      rw [hr] at hv
      cases hv
    next hv =>
      split
      next dv hd =>
        have h2 : ∀ nf2 ∈ rest,
            AL.contains (data ++ [(n, dv)]) nf2.1 = false := by
          intro nf2 hm
          rw [AL.contains_false_iff, AL.get_append]
          rw [(AL.contains_false_iff data nf2.1).mp
            (hdis nf2 (List.mem_cons_of_mem _ hm))]
          have hne : nf2.1 ≠ n := AL.ne_of_get_none hnd.1 hm
          simp [AL.get, Ne.symm hne, optOr]
        rw [AL.insert_of_not_contains data n dv
          (hdis (n, f) (List.mem_cons_self _ _))]
        rw [ih (data ++ [(n, dv)]) hnd.2
          (fun nf2 hm => habs nf2 (List.mem_cons_of_mem _ hm)) h2]
        simp [schemaDefaults, hd]
      next hd =>
        rw [ih data hnd.2
          (fun nf2 hm => habs nf2 (List.mem_cons_of_mem _ hm))
          (fun nf2 hm => hdis nf2 (List.mem_cons_of_mem _ hm))]
        simp [schemaDefaults, hd]

theorem mem_schemaDefaults (fs : StrMap Field) (kv : String × Value)
    (h : kv ∈ schemaDefaults fs) : ∃ nf ∈ fs, nf.1 = kv.1 := by
  induction fs with
  | nil => cases h
  | cons nf rest ih =>
    obtain ⟨n, f⟩ := nf
    simp only [schemaDefaults] at h
    split at h
    · rcases List.mem_cons.mp h with h1 | h1
      · exact ⟨(n, f), List.mem_cons_self _ _, by rw [h1]⟩
      · obtain ⟨nf2, hm, he⟩ := ih h1
        exact ⟨nf2, List.mem_cons_of_mem _ hm, he⟩
    · obtain ⟨nf2, hm, he⟩ := ih h
      exact ⟨nf2, List.mem_cons_of_mem _ hm, he⟩

theorem get_schemaDefaults_none (fs : StrMap Field) (k : String)
    (h : AL.get fs k = none) : AL.get (schemaDefaults fs) k = none := by
  induction fs with
  | nil => rfl
  | cons nf rest ih =>
    obtain ⟨n, f⟩ := nf
    unfold AL.get at h
    by_cases h1 : n = k
    · simp [h1] at h
    · rw [if_neg h1] at h
      simp only [schemaDefaults]
      split
      · unfold AL.get
        rw [if_neg h1]
        exact ih h
      · exact ih h

theorem extrasLoadAux_get_preserved (l data : Dict) (k : String)
    (h : AL.contains data k = true) :
    AL.get (extrasLoadAux l data) k = AL.get data k := by
  induction l generalizing data with
  | nil => rfl
  | cons kv rest ih =>
    obtain ⟨k1, v1⟩ := kv
    simp only [extrasLoadAux]
    split
    next hc =>
      have hne : k1 ≠ k := by
        intro he
        exact hc.1 (by rw [he]; exact h)
      rw [ih _ (by rw [AL.contains_insert_ne data k1 k v1 (Ne.symm hne)]; exact h)]
      exact AL.get_insert_ne data k1 k v1 (Ne.symm hne)
    next => exact ih data h

theorem extrasLoadAux_get_first (l data : Dict) (k : String) (v : Value)
    (hl : AL.get l k = some v) (hd : AL.contains data k = false)
    (hu : startsUnderscore k = false) :
    AL.get (extrasLoadAux l data) k = some v := by
  induction l generalizing data with
  | nil => cases hl
  | cons kv rest ih =>
    obtain ⟨k1, v1⟩ := kv
    unfold AL.get at hl
    by_cases h1 : k1 = k
    · rw [if_pos h1] at hl
      injection hl with hl
      subst h1
      simp only [extrasLoadAux]
      have hcond : ¬ AL.contains data k1 = true ∧
          ¬ startsUnderscore k1 = true := by
        rw [hd, hu]
        simp
      rw [if_pos hcond]
      rw [extrasLoadAux_get_preserved rest _ k1
        (AL.contains_insert_self data k1 v1)]
      rw [AL.get_insert_self, hl]
    · rw [if_neg h1] at hl
      simp only [extrasLoadAux]
      split
      next hc =>
        exact ih _ hl
          (by rw [AL.contains_insert_ne data k1 k v1 (Ne.symm h1)]; exact hd)
      next => exact ih data hl hd

theorem extrasLoadAux_get_none (l data : Dict) (k : String)
    (hl : AL.get l k = none) :
    AL.get (extrasLoadAux l data) k = AL.get data k := by
  induction l generalizing data with
  | nil => rfl
  | cons kv rest ih =>
    obtain ⟨k1, v1⟩ := kv
    unfold AL.get at hl
    by_cases h1 : k1 = k
    · simp [h1] at hl
    · rw [if_neg h1] at hl
      simp only [extrasLoadAux]
      split
      · rw [ih _ hl, AL.get_insert_ne data k1 k v1 (Ne.symm h1)]
      · exact ih data hl

theorem extrasLoadAux_get_underscore (l data : Dict) (k : String)
    (hu : startsUnderscore k = true) :
    AL.get (extrasLoadAux l data) k = AL.get data k := by
  induction l generalizing data with
  | nil => rfl
  | cons kv rest ih =>
    obtain ⟨k1, v1⟩ := kv
    simp only [extrasLoadAux]
    split
    next hc =>
      have hne : k1 ≠ k := by
        intro he
        rw [he, hu] at hc
        exact hc.2 rfl
      rw [ih _, AL.get_insert_ne data k1 k v1 (Ne.symm hne)]
    next => exact ih data

theorem assignAll_ok_get (c : RecordClass) (attrs l r : Dict) (k : String)
    (hnd : AL.nodup l = true) (h : assignAll c attrs l = .ok r) :
    AL.get r k = optOr (AL.get l k) (AL.get attrs k) := by
  induction l generalizing attrs with
  | nil =>
    simp only [assignAll] at h
    injection h with h
    subst h
    rfl
  | cons kv rest ih =>
    obtain ⟨k1, v1⟩ := kv
    simp only [AL.nodup, Bool.and_eq_true, Option.isNone_iff_eq_none] at hnd
    simp only [assignAll] at h
    split at h
    · cases h
    next hcl =>
      by_cases h1 : k1 = k
      · subst h1
        rw [ih _ hnd.2 h]
        simp [AL.get, optOr, hnd.1, AL.get_insert_self]
      · rw [ih _ hnd.2 h]
        simp [AL.get, h1, AL.get_insert_ne attrs k1 k v1 (Ne.symm h1)]

theorem assignAll_ok_clean (c : RecordClass) (attrs l r : Dict)
    (h : assignAll c attrs l = .ok r) :
    ∀ kv ∈ l, kv.1 ∉ c.safeList ∧ kv.1 ∉ c.callables := by
  induction l generalizing attrs with
  | nil =>
    intro kv hm
    cases hm
  | cons kv0 rest ih =>
    obtain ⟨k1, v1⟩ := kv0
    simp only [assignAll] at h
    split at h
    · cases h
    next hcl =>
      intro kv hm
      rcases List.mem_cons.mp hm with h2 | h2
      · subst h2
        exact ⟨fun hs => hcl (Or.inl hs), fun hs => hcl (Or.inr hs)⟩
      · exact ih _ h kv h2

theorem assignAll_append_error (c : RecordClass) (attrs : Dict) (l : Dict)
    (x : String) (v : Value)
    (hl : ∀ kv ∈ l, kv.1 ∉ c.safeList ∧ kv.1 ∉ c.callables)
    (hx : x ∈ c.safeList ∨ x ∈ c.callables) :
    assignAll c attrs (l ++ [(x, v)]) =
      .error (.memberExists (memberMsg x c.name)) := by
  induction l generalizing attrs with
  | nil =>
    simp only [List.nil_append, assignAll]
    rw [if_pos hx]
  | cons kv rest ih =>
    obtain ⟨k1, v1⟩ := kv
    simp only [List.cons_append, assignAll]
    have hcl := hl (k1, v1) (List.mem_cons_self _ _)
    rw [if_neg (fun hs => Or.elim hs hcl.1 hcl.2)]
    exact ih _ (fun kv2 hm => hl kv2 (List.mem_cons_of_mem _ hm))

theorem dumpExtrasAux_get_preserved (c : RecordClass) (attrs : Dict)
    (ps : List String) (data : Dict) (k : String)
    (h : AL.contains data k = true) :
    AL.get (dumpExtrasAux c attrs ps data) k = AL.get data k := by
  induction ps generalizing data with
  | nil => rfl
  | cons p rest ih =>
    simp only [dumpExtrasAux]
    split
    next hc1 => exact ih data h
    next hc1 =>
      split
      next hc2 => exact ih data h
      next hc2 =>
        split
        next hc3 => exact ih data h
        next hc3 =>
          split
          next v hv =>
            have hne : p ≠ k := by
              intro he
              subst he
              exact hc1 h
            have hck : AL.contains (AL.insert data p v) k = true := by
              rw [AL.contains_insert_ne data p k v (Ne.symm hne)]
              exact h
            rw [ih _ hck]
            exact AL.get_insert_ne data p k v (Ne.symm hne)
          next hv => exact ih data h

theorem dumpExtrasAux_get_skip (c : RecordClass) (attrs : Dict)
    (ps : List String) (data : Dict) (k : String)
    (h : startsUnderscore k = true ∨ AL.get attrs k = none) :
    AL.get (dumpExtrasAux c attrs ps data) k = AL.get data k := by
  induction ps generalizing data with
  | nil => rfl
  | cons p rest ih =>
    simp only [dumpExtrasAux]
    split
    next hc1 => exact ih data
    next hc1 =>
      split
      next hc2 => exact ih data
      next hc2 =>
        split
        next hc3 => exact ih data
        next hc3 =>
          split
          next v hv =>
            have hne : p ≠ k := by
              intro he
              subst he
              rcases h with h | h
              · exact hc3 h
              · rw [h] at hv
                exact Option.noConfusion hv
            rw [ih _, AL.get_insert_ne data p k v (Ne.symm hne)]
          next hv => exact ih data

theorem dumpExtrasAux_get_emit (c : RecordClass) (attrs : Dict)
    (ps : List String) (data : Dict) (k : String) (v : Value)
    (hin : k ∈ ps) (hd : AL.contains data k = false)
    (hu : startsUnderscore k = false)
    (hc : isCallableAttr c attrs k = false)
    (ha : AL.get attrs k = some v) :
    AL.get (dumpExtrasAux c attrs ps data) k = some v := by
  induction ps generalizing data with
  | nil => cases hin
  | cons p rest ih =>
    by_cases h1 : p = k
    · subst h1
      simp only [dumpExtrasAux]
      rw [if_neg (by rw [hd]; simp)]
      rw [if_neg (by rw [hc]; simp)]
      rw [if_neg (by rw [hu]; simp)]
      split
      next w hw =>
        rw [ha] at hw
        injection hw with hw
        rw [dumpExtrasAux_get_preserved c attrs rest _ p
          (AL.contains_insert_self data p w)]
        rw [AL.get_insert_self data p w, hw]
      next hw =>
        rw [ha] at hw
        exact Option.noConfusion hw
    · have hin2 : k ∈ rest := by
        rcases List.mem_cons.mp hin with h2 | h2
        · exact absurd h2.symm h1
        · exact h2
      simp only [dumpExtrasAux]
      split
      next => exact ih data hin2 hd
      next =>
        split
        next => exact ih data hin2 hd
        next =>
          split
          next => exact ih data hin2 hd
          next =>
            split
            next v1 hv1 =>
              have hck : AL.contains (AL.insert data p v1) k = false := by
                rw [AL.contains_insert_ne data p k v1 (Ne.symm h1)]
                exact hd
              exact ih _ hin2 hck
            next => exact ih data hin2 hd

theorem mem_insertSorted (a b : String) (l : List String) :
    a ∈ insertSorted b l ↔ a = b ∨ a ∈ l := by
  induction l with
  | nil => simp [insertSorted]
  | cons c rest ih =>
    simp only [insertSorted]
    split
    · simp [List.mem_cons]
    · simp only [List.mem_cons, ih]
      tauto

theorem mem_sortStrings (a : String) (l : List String) :
    a ∈ sortStrings l ↔ a ∈ l := by
  induction l with
  | nil => simp [sortStrings]
  | cons b rest ih =>
    simp only [sortStrings, mem_insertSorted, ih, List.mem_cons]

theorem mem_dedupStr (a : String) (l : List String) :
    a ∈ dedupStr l ↔ a ∈ l := by
  induction l with
  | nil => simp [dedupStr]
  | cons b rest ih =>
    simp only [dedupStr]
    split
    next hb =>
      rw [ih]
      simp only [List.mem_cons]
      constructor
      · exact Or.inr
      · rintro (h | h)
        · rw [h]; exact hb
        · exact h
    next hb => simp only [List.mem_cons, ih]

theorem mem_dirList_of_get (c : RecordClass) (attrs : Dict) (k : String)
    (v : Value) (h : AL.get attrs k = some v) : k ∈ dirList c attrs := by
  have hmem : k ∈ AL.keys attrs := AL.mem_keys_of_get h
  unfold dirList
  rw [mem_sortStrings, mem_dedupStr]
  simp only [List.mem_append]
  exact Or.inl (Or.inl hmem)

theorem fieldDefaultsAux_get_unmem (kw : Dict) (fs : StrMap Field)
    (attrs : Dict) (k : String) (h : AL.get fs k = none) :
    AL.get (fieldDefaultsAux kw fs attrs) k = AL.get attrs k := by
  induction fs generalizing attrs with
  | nil => rfl
  | cons nf rest ih =>
    obtain ⟨n, f⟩ := nf
    unfold AL.get at h
    by_cases h1 : n = k
    · simp [h1] at h
    · rw [if_neg h1] at h
      simp only [fieldDefaultsAux]
      rw [ih _ h, AL.get_insert_ne attrs n k _ (Ne.symm h1)]

theorem fieldDefaultsAux_nodup (kw : Dict) (fs : StrMap Field)
    (attrs : Dict) (h : AL.nodup attrs = true) :
    AL.nodup (fieldDefaultsAux kw fs attrs) = true := by
  induction fs generalizing attrs with
  | nil => exact h
  | cons nf rest ih =>
    obtain ⟨n, f⟩ := nf
    simp only [fieldDefaultsAux]
    exact ih _ (AL.nodup_insert attrs n _ h)

theorem Collection.init_eq (c : RecordClass) :
    Collection.init c = fieldDefaultsAux [] c.fields [("_key", .null)] := rfl

theorem Collection.init_get_key (c : RecordClass)
    (h : AL.get c.fields "_key" = none) :
    AL.get (Collection.init c) "_key" = some .null := by
  rw [Collection.init_eq, fieldDefaultsAux_get_unmem [] c.fields _ _ h]
  rfl

theorem Collection.init_get_unmem (c : RecordClass) (k : String)
    (hf : AL.get c.fields k = none) (hk : k ≠ "_key") :
    AL.get (Collection.init c) k = none := by
  rw [Collection.init_eq, fieldDefaultsAux_get_unmem [] c.fields _ _ hf]
  simp [AL.get, Ne.symm hk]

theorem Collection.init_nodup (c : RecordClass) :
    AL.nodup (Collection.init c) = true := by
  rw [Collection.init_eq]
  exact fieldDefaultsAux_nodup [] c.fields _ rfl

theorem Relation.relInit_eq (c : RecordClass) :
    Relation.init c = fieldDefaultsAux [] c.fields
      [("_collections_from", .null), ("_collections_to", .null),
       ("_from", .null), ("_to", .null), ("_object_from", .null),
       ("_object_to", .null), ("_key", .null)] := rfl

theorem Relation.relInit_get_from (c : RecordClass)
    (h : AL.get c.fields "_from" = none) :
    AL.get (Relation.init c) "_from" = some .null := by
  rw [Relation.relInit_eq, fieldDefaultsAux_get_unmem [] c.fields _ _ h]
  rfl

theorem Relation.relInit_get_to (c : RecordClass)
    (h : AL.get c.fields "_to" = none) :
    AL.get (Relation.init c) "_to" = some .null := by
  rw [Relation.relInit_eq, fieldDefaultsAux_get_unmem [] c.fields _ _ h]
  rfl

theorem Relation.relInit_get_key (c : RecordClass)
    (h : AL.get c.fields "_key" = none) :
    AL.get (Relation.init c) "_key" = some .null := by
  rw [Relation.relInit_eq, fieldDefaultsAux_get_unmem [] c.fields _ _ h]
  rfl

theorem Relation.relInit_nodup (c : RecordClass) :
    AL.nodup (Relation.init c) = true := by
  rw [Relation.relInit_eq]
  exact fieldDefaultsAux_nodup [] c.fields _ (by decide)

theorem ne_of_not_underscore {k s : String}
    (hk : startsUnderscore k = false) (hs : startsUnderscore s = true) :
    k ≠ s := by
  intro he
  rw [he, hs] at hk
  cases hk

theorem assignAll_error_member (c : RecordClass) (attrs l : Dict)
    (e : PyErr) (h : assignAll c attrs l = .error e) :
    ∃ s, e = PyErr.memberExists s := by
  induction l generalizing attrs with
  | nil =>
    simp only [assignAll] at h
    cases h
  | cons kv rest ih =>
    obtain ⟨k1, v1⟩ := kv
    simp only [assignAll] at h
    split at h
    · injection h with h
      exact ⟨memberMsg k1 c.name, h.symm⟩
    · exact ih _ h

theorem keyGuard_get_ne (inDict obj2 : Dict) (k : String)
    (hk : k ≠ "_key") :
    AL.get (keyGuard inDict obj2) k = AL.get obj2 k := by
  unfold keyGuard
  split
  · split
    · exact AL.get_insert_ne obj2 "_key" k _ hk
    · rfl
  · rfl

theorem keyGuard_get_key_contains (inDict obj2 : Dict)
    (h : AL.contains obj2 "_key" = true) :
    AL.get (keyGuard inDict obj2) "_key" = AL.get obj2 "_key" := by
  unfold keyGuard
  rw [if_neg]
  rw [h]
  simp

theorem keyAdd_get_ne (attrs data0 : Dict) (k : String) (hk : k ≠ "_key") :
    AL.get (keyAdd attrs data0) k = AL.get data0 k := by
  unfold keyAdd
  split
  · rfl
  · split
    · exact AL.get_insert_ne data0 "_key" k _ hk
    · rfl

theorem keyAdd_get_key_absent (attrs data0 : Dict) (v : Value)
    (h0 : AL.get data0 "_key" = none)
    (ha : AL.get attrs "_key" = some v) :
    AL.get (keyAdd attrs data0) "_key" = some v := by
  unfold keyAdd
  have hc : AL.contains data0 "_key" = false :=
    (AL.contains_false_iff data0 "_key").mpr h0
  rw [if_neg (by rw [hc]; simp)]
  simp only [ha]
  exact AL.get_insert_self data0 "_key" v

theorem keyAdd_nodup (attrs data0 : Dict) (hd : AL.nodup data0 = true) :
    AL.nodup (keyAdd attrs data0) = true := by
  unfold keyAdd
  split
  · exact hd
  · split
    · exact AL.nodup_insert data0 "_key" _ hd
    · exact hd

theorem keyDelNull_get_ne (data1 : Dict) (k : String) (hk : k ≠ "_key") :
    AL.get (keyDelNull data1) k = AL.get data1 k := by
  unfold keyDelNull
  split
  · exact AL.get_erase_ne data1 "_key" k hk
  · rfl

theorem keyDelNull_get_key_null (data1 : Dict)
    (h : AL.get data1 "_key" = some .null) (hd : AL.nodup data1 = true) :
    AL.get (keyDelNull data1) "_key" = none := by
  unfold keyDelNull
  rw [if_pos h]
  exact AL.get_erase_self data1 "_key" hd

theorem keyDelNull_get_key_some (data1 : Dict) (v : Value)
    (h : AL.get data1 "_key" = some v) (hv : v ≠ .null) :
    AL.get (keyDelNull data1) "_key" = some v := by
  unfold keyDelNull
  rw [if_neg (by rw [h]; intro he; injection he with he; exact hv he)]
  exact h

theorem keyFixup_get_ne (attrs data0 : Dict) (k : String)
    (hk : k ≠ "_key") :
    AL.get (keyFixup attrs data0) k = AL.get data0 k := by
  unfold keyFixup
  rw [keyDelNull_get_ne _ k hk, keyAdd_get_ne attrs data0 k hk]

theorem keyFixup_get_key_null (attrs data0 : Dict)
    (ha : AL.get attrs "_key" = some .null)
    (hd : AL.nodup data0 = true)
    (h0 : AL.get data0 "_key" = none ∨ AL.get data0 "_key" = some .null) :
    AL.get (keyFixup attrs data0) "_key" = none := by
  unfold keyFixup
  rcases h0 with h0 | h0
  · exact keyDelNull_get_key_null _ (keyAdd_get_key_absent attrs data0 _ h0 ha)
      (keyAdd_nodup attrs data0 hd)
  · have hc : AL.contains data0 "_key" = true := by
      unfold AL.contains
      rw [h0]
      rfl
    have hka : keyAdd attrs data0 = data0 := by
      unfold keyAdd
      rw [if_pos hc]
    rw [hka]
    exact keyDelNull_get_key_null data0 h0 hd

theorem keyFixup_get_key_some (attrs data0 : Dict) (v : Value)
    (h0 : AL.get data0 "_key" = none)
    (ha : AL.get attrs "_key" = some v) (hv : v ≠ .null) :
    AL.get (keyFixup attrs data0) "_key" = some v := by
  unfold keyFixup
  exact keyDelNull_get_key_some _ v (keyAdd_get_key_absent attrs data0 v h0 ha)
    hv

theorem Collection.dump_ok_inv (c : RecordClass) (attrs d : Dict)
    (h : Collection.dump c attrs = .ok d) :
    (schemaDump c.fields attrs).2 = [] ∧ d = Collection.dumpBody c attrs := by
  unfold Collection.dump at h
  split at h
  · cases h
  next hne =>
    refine ⟨?_, ?_⟩
    · by_contra hcon
      exact hne hcon
    · injection h with h
      exact h.symm

theorem Relation.relDump_ok_inv (c : RecordClass) (attrs d : Dict)
    (h : Relation.dump c attrs = .ok d) :
    (schemaDump c.fields attrs).2 = [] ∧
    d = Relation.dumpFromTo attrs (Collection.dumpBody c attrs) := by
  unfold Relation.dump at h
  split at h
  next e heq => cases h
  next data heq =>
    obtain ⟨he, hb⟩ := Collection.dump_ok_inv c attrs data heq
    injection h with h
    exact ⟨he, by rw [← h, hb]⟩

theorem Relation.loadFromTo_get_ne (inDict obj : Dict) (k : String)
    (h1 : k ≠ "_from") (h2 : k ≠ "_to") :
    AL.get (Relation.loadFromTo inDict obj) k = AL.get obj k := by
  simp only [Relation.loadFromTo]
  have hg : ∀ o : Dict, AL.get o k = AL.get obj k →
      AL.get (match AL.get inDict "_to" with
              | some v => AL.insert o "_to" v
              | none => o) k = AL.get obj k := by
    intro o ho
    split
    · rw [AL.get_insert_ne o "_to" k _ h2]
      exact ho
    · exact ho
  apply hg
  split
  · exact AL.get_insert_ne obj "_from" k _ h1
  · rfl

theorem Relation.loadFromTo_get_from (inDict obj : Dict) :
    AL.get (Relation.loadFromTo inDict obj) "_from" =
      optOr (AL.get inDict "_from") (AL.get obj "_from") := by
  have hft : ("_from" : String) ≠ "_to" := by decide
  simp only [Relation.loadFromTo]
  rcases hf : AL.get inDict "_from" with _ | v
  all_goals rcases ht : AL.get inDict "_to" with _ | w
  · simp [optOr]
  · simp [optOr, AL.get_insert_ne obj "_to" "_from" w hft]
  · simp [optOr, AL.get_insert_self]
  · simp [optOr, AL.get_insert_ne _ "_to" "_from" w hft, AL.get_insert_self]

theorem Relation.loadFromTo_get_to (inDict obj : Dict) :
    AL.get (Relation.loadFromTo inDict obj) "_to" =
      optOr (AL.get inDict "_to") (AL.get obj "_to") := by
  have htf : ("_to" : String) ≠ "_from" := by decide
  simp only [Relation.loadFromTo]
  rcases hf : AL.get inDict "_from" with _ | v
  all_goals rcases ht : AL.get inDict "_to" with _ | w
  · simp [optOr]
  · simp [optOr, AL.get_insert_self]
  · simp [optOr, AL.get_insert_ne obj "_from" "_to" v htf]
  · simp [optOr, AL.get_insert_ne obj "_from" "_to" v htf,
      AL.get_insert_self]

theorem Collection.loadCore_ok_inv (c : RecordClass) (inDict a : Dict)
    (dbv : Value) (h : Collection.loadCore c inDict dbv = .ok a) :
    ∃ obj2,
      (schemaLoad c.fields inDict).2 = [] ∧
      assignAll c (AL.insert (Collection.init c) "_db" dbv)
        (if c.allowExtra then
          extrasLoadAux inDict (schemaLoad c.fields inDict).1
         else (schemaLoad c.fields inDict).1) = .ok obj2 ∧
      (∀ k, startsUnderscore k = false → AL.get a k = AL.get obj2 k) ∧
      (AL.contains obj2 "_key" = true →
        AL.get a "_key" = AL.get obj2 "_key") := by
  simp only [Collection.loadCore] at h
  split at h
  · cases h
  next hne =>
    split at h
    next e heq => cases h
    next obj2 heq =>
      have hcoll : startsUnderscore "__collection__" = true := rfl
      have hkeyu : startsUnderscore "_key" = true := rfl
      refine ⟨obj2, ?_, heq, ?_, ?_⟩
      · by_contra hcon
        exact hne hcon
      · intro k hk
        split at h
        · injection h with h
          rw [← h,
            AL.get_insert_ne _ "__collection__" k _
              (ne_of_not_underscore hk hcoll),
            keyGuard_get_ne inDict obj2 k (ne_of_not_underscore hk hkeyu)]
        · cases h
        · injection h with h
          rw [← h, keyGuard_get_ne inDict obj2 k
            (ne_of_not_underscore hk hkeyu)]
      · intro hck
        have hne2 : ("_key" : String) ≠ "__collection__" := by decide
        split at h
        · injection h with h
          rw [← h, AL.get_insert_ne _ "__collection__" "_key" _ hne2,
            keyGuard_get_key_contains inDict obj2 hck]
        · cases h
        · injection h with h
          rw [← h, keyGuard_get_key_contains inDict obj2 hck]

theorem Relation.relLoadCore_ok_inv (c : RecordClass) (inDict a : Dict)
    (dbv : Value) (h : Relation.loadCore c inDict dbv = .ok a) :
    ∃ obj2,
      (schemaLoad c.fields inDict).2 = [] ∧
      assignAll c (AL.insert (Relation.init c) "_db" dbv)
        (if c.allowExtra then
          extrasLoadAux inDict (schemaLoad c.fields inDict).1
         else (schemaLoad c.fields inDict).1) = .ok obj2 ∧
      (∀ k, startsUnderscore k = false → AL.get a k = AL.get obj2 k) ∧
      AL.get a "_from" = optOr (AL.get inDict "_from") (AL.get obj2 "_from") ∧
      AL.get a "_to" = optOr (AL.get inDict "_to") (AL.get obj2 "_to") := by
  simp only [Relation.loadCore] at h
  split at h
  · cases h
  next hne =>
    split at h
    next e heq => cases h
    next obj2 heq =>
      have hcoll : startsUnderscore "__collection__" = true := rfl
      have hkeyu : startsUnderscore "_key" = true := rfl
      have hfc : ("_from" : String) ≠ "__collection__" := by decide
      have htc : ("_to" : String) ≠ "__collection__" := by decide
      have hfk : ("_from" : String) ≠ "_key" := by decide
      have htk : ("_to" : String) ≠ "_key" := by decide
      refine ⟨obj2, ?_, heq, ?_, ?_, ?_⟩
      · by_contra hcon
        exact hne hcon
      · intro k hk
        have hkf : k ≠ "_from" := ne_of_not_underscore hk rfl
        have hkt : k ≠ "_to" := ne_of_not_underscore hk rfl
        split at h
        · injection h with h
          rw [← h, Relation.loadFromTo_get_ne inDict _ k hkf hkt,
            AL.get_insert_ne _ "__collection__" k _
              (ne_of_not_underscore hk hcoll),
            keyGuard_get_ne inDict obj2 k (ne_of_not_underscore hk hkeyu)]
        · cases h
        · injection h with h
          rw [← h, Relation.loadFromTo_get_ne inDict _ k hkf hkt,
            keyGuard_get_ne inDict obj2 k (ne_of_not_underscore hk hkeyu)]
      · split at h
        · injection h with h
          rw [← h, Relation.loadFromTo_get_from,
            AL.get_insert_ne _ "__collection__" "_from" _ hfc,
            keyGuard_get_ne inDict obj2 "_from" hfk]
        · cases h
        · injection h with h
          rw [← h, Relation.loadFromTo_get_from,
            keyGuard_get_ne inDict obj2 "_from" hfk]
      · split at h
        · injection h with h
          rw [← h, Relation.loadFromTo_get_to,
            AL.get_insert_ne _ "__collection__" "_to" _ htc,
            keyGuard_get_ne inDict obj2 "_to" htk]
        · cases h
        · injection h with h
          rw [← h, Relation.loadFromTo_get_to,
            keyGuard_get_ne inDict obj2 "_to" htk]

theorem AL.mem_of_get {α : Type} {d : StrMap α} {k : String} {v : α}
    (h : AL.get d k = some v) : (k, v) ∈ d := by
  induction d with
  | nil => cases h
  | cons kv rest ih =>
    obtain ⟨k1, v1⟩ := kv
    unfold AL.get at h
    by_cases h1 : k1 = k
    · rw [if_pos h1] at h
      injection h with h
      rw [← h1, ← h]
      exact List.mem_cons_self _ _
    · rw [if_neg h1] at h
      exact List.mem_cons_of_mem _ (ih h)

theorem schemaLoad_get_unmem (fs : StrMap Field) (raw : Dict) (k : String)
    (h : AL.get fs k = none) : AL.get (schemaLoad fs raw).1 k = none :=
  schemaLoadAux_get_unmem raw fs [] [] k h

theorem schemaDump_get_unmem (fs : StrMap Field) (attrs : Dict) (k : String)
    (h : AL.get fs k = none) : AL.get (schemaDump fs attrs).1 k = none :=
  schemaDumpAux_get_unmem attrs fs [] [] k h

theorem schemaLoad_nodup (fs : StrMap Field) (raw : Dict) :
    AL.nodup (schemaLoad fs raw).1 = true :=
  schemaLoadAux_nodup raw fs [] [] rfl

theorem schemaDump_nodup (fs : StrMap Field) (attrs : Dict) :
    AL.nodup (schemaDump fs attrs).1 = true :=
  schemaDumpAux_nodup attrs fs [] [] rfl

theorem Collection.dumpBody_get_extra (c : RecordClass) (attrs : Dict)
    (k : String) (v : Value) (hex : c.allowExtra = true)
    (hu : startsUnderscore k = false) (hf : AL.get c.fields k = none)
    (ha : AL.get attrs k = some v) :
    AL.get (Collection.dumpBody c attrs) k = some v := by
  have hk : k ≠ "_key" := ne_of_not_underscore hu rfl
  have h2 : AL.get (keyFixup attrs (schemaDump c.fields attrs).1) k = none := by
    rw [keyFixup_get_ne _ _ k hk]
    exact schemaDump_get_unmem c.fields attrs k hf
  have hif : (if c.allowExtra = true then
      dumpExtrasAux c attrs (dirList c attrs)
        (keyFixup attrs (schemaDump c.fields attrs).1)
    else keyFixup attrs (schemaDump c.fields attrs).1) =
      dumpExtrasAux c attrs (dirList c attrs)
        (keyFixup attrs (schemaDump c.fields attrs).1) := by
    rw [hex]
    rfl
  simp only [Collection.dumpBody]
  rw [hif]
  exact dumpExtrasAux_get_emit c attrs _ _ k v
    (mem_dirList_of_get c attrs k v ha)
    ((AL.contains_false_iff _ k).mpr h2)
    hu
    (by simp [isCallableAttr, AL.contains, ha])
    ha

theorem Collection.dumpBody_get_absent (c : RecordClass) (attrs : Dict)
    (k : String) (hu : startsUnderscore k = false)
    (hf : AL.get c.fields k = none) (hna : AL.get attrs k = none) :
    AL.get (Collection.dumpBody c attrs) k = none := by
  have hk : k ≠ "_key" := ne_of_not_underscore hu rfl
  have h2 : AL.get (keyFixup attrs (schemaDump c.fields attrs).1) k = none := by
    rw [keyFixup_get_ne _ _ k hk]
    exact schemaDump_get_unmem c.fields attrs k hf
  simp only [Collection.dumpBody]
  split
  · rw [dumpExtrasAux_get_skip c attrs _ _ k (Or.inr hna)]
    exact h2
  · exact h2

theorem Collection.dumpBody_contains_declared (c : RecordClass)
    (attrs : Dict) (k : String) (f : Field)
    (hnd : AL.nodup c.fields = true)
    (hu : startsUnderscore k = false)
    (hdecl : AL.get c.fields k = some f)
    (hp : AL.contains attrs k = true)
    (herr : (schemaDump c.fields attrs).2 = []) :
    AL.contains (Collection.dumpBody c attrs) k = true := by
  have hk : k ≠ "_key" := ne_of_not_underscore hu rfl
  obtain ⟨vv, hv⟩ := (AL.contains_true_iff attrs k).mp hp
  have h0 : ∃ w, AL.get (schemaDump c.fields attrs).1 k = some w := by
    have hg := schemaDumpAux_get_mem attrs c.fields [] [] k f hnd hdecl
    simp only [hv] at hg
    by_cases hvn : vv = Value.null
    · rw [if_pos hvn] at hg
      exact ⟨.null, hg⟩
    · rw [if_neg hvn] at hg
      have hmem : (k, f) ∈ c.fields := AL.mem_of_get hdecl
      obtain ⟨w, hw⟩ :=
        (schemaDumpAux_errs_nil attrs c.fields [] [] herr).2 (k, f) hmem vv
          hv hvn
      rw [hw] at hg
      exact ⟨w, hg⟩
  obtain ⟨w, hw⟩ := h0
  have h2 : AL.get (keyFixup attrs (schemaDump c.fields attrs).1) k
      = some w := by
    rw [keyFixup_get_ne _ _ k hk]
    exact hw
  simp only [Collection.dumpBody]
  split
  · unfold AL.contains
    rw [dumpExtrasAux_get_preserved c attrs _ _ k
      (by unfold AL.contains; rw [h2]; rfl), h2]
    rfl
  · unfold AL.contains
    rw [h2]
    rfl

theorem addEndpoint_absent (name : String) (attrs data : Dict) (v : Value)
    (hd : AL.get data name = none) (ha : AL.get attrs name = some v) :
    addEndpoint name attrs data = AL.insert data name v := by
  unfold addEndpoint
  rw [if_neg (by rw [(AL.contains_false_iff data name).mpr hd]; simp)]
  rw [ha]

theorem Relation.dumpFromTo_get (attrs data : Dict) (vf vt : Value)
    (hdf : AL.get data "_from" = none) (hdt : AL.get data "_to" = none)
    (haf : AL.get attrs "_from" = some vf)
    (hat : AL.get attrs "_to" = some vt) :
    AL.get (Relation.dumpFromTo attrs data) "_from" = some vf ∧
    AL.get (Relation.dumpFromTo attrs data) "_to" = some vt := by
  unfold Relation.dumpFromTo
  rw [addEndpoint_absent "_from" attrs data vf hdf haf]
  rw [addEndpoint_absent "_to" attrs (AL.insert data "_from" vf) vt
    (by rw [AL.get_insert_ne data "_from" "_to" vf (by decide)]
        exact hdt)
    hat]
  constructor
  · rw [AL.get_insert_ne _ "_to" "_from" vt (by decide),
      AL.get_insert_self]
  · rw [AL.get_insert_self]

/-! ### Claims -/

/-- Claim C1: the specification says a record type's schema is the merge
of its own field declarations with all ancestor types' declarations (own
winning on collision), so a field declared only on an ancestor is in the
subtype's `_fields`.  The code computes
`dict(getattr(cls, '_fields', ...), **new_fields)` where `cls` is the
metaclass (which never carries `_fields`), so for
`class Person(Collection): name = String()` and
`class Student(Person): grade = Integer()` the computed `Student._fields`
holds only `grade`: the inherited `name` is dropped, contradicting the
claim. -/
theorem c1_inherited_fields_dropped :
    AL.keys (classFields studentOwnFields) = ["grade"] ∧
    ("name" ∈ AL.keys (classFields studentOwnFields) → False) ∧
    "name" ∈ AL.keys (classFields personOwnFields) := by
  refine ⟨rfl, ?_, ?_⟩
  · intro h
    revert h
    decide
  · decide

/-- Claim C2: the specification says `_load(m)._dump() == m` (modulo
default fill), and in particular a `_key` present in `m` survives into
the dump of the loaded instance.  Evaluating the code at
`m = ("name": "x", "_key": "abc")` on `Person`: `cls()` presets
`_key = None`, so the `not hasattr(new_obj, '_key')` guard of `_load`
never fires, the input `_key` is dropped (the loaded instance's `_key`
is null), and `_dump` then deletes the null `_key`, so the round trip
loses `_key` entirely. -/
theorem c2_key_dropped_on_roundtrip :
    loadDump personClass [("name", .str "x"), ("_key", .str "abc")] =
      .ok [("name", .str "x")] ∧
    Collection.load personClass [("name", .str "x"), ("_key", .str "abc")]
      none none =
      .ok [("_key", .null), ("name", .str "x"), ("_db", .null)] :=
  ⟨rfl, rfl⟩

/-- Claim C3, counterexample: the claim says loading a `Relation` type
from a mapping without `_from`/`_to` yields a record whose dump contains
no `_from` and no `_to` key.  On `Likes(Relation)` with no declared
fields, loading the empty mapping and dumping yields a mapping that does
contain both keys (with null values), because `Relation.__init__` seeds
`_from = None` and `_to = None` and `_dump` emits any endpoint attribute
the instance has. -/
theorem c3_counterexample :
    relLoadDump likesClass [] = .ok [("_from", .null), ("_to", .null)] ∧
    AL.contains [(("_from" : String), Value.null), ("_to", Value.null)]
      "_from" = true ∧
    AL.contains [(("_from" : String), Value.null), ("_to", Value.null)]
      "_to" = true :=
  ⟨rfl, rfl, rfl⟩

/-- Claim C4, counterexample: the claim says loading a mapping containing
the key `_safe_list` raises `MemberExistsException` and constructs no
object.  On `Person`, `_load(("_safe_list": "x"))` returns a constructed
object without raising: the extra-field loop skips every key starting
with an underscore, so `_safe_list` never reaches the collision check. -/
theorem c4_counterexample :
    Collection.load personClass [("_safe_list", .str "x")] none none =
      .ok [("_key", .null), ("name", .null), ("_db", .null)] :=
  rfl

/-- Claim C5, counterexample: the claim says for every raw mapping with
an undeclared non-underscore key `x`, `_load(m)._dump()` contains `x`
unchanged.  For `x = "schema"` (a callable member of every record type)
the load raises `MemberExistsException` instead, so the round trip
produces no mapping at all. -/
theorem c5_counterexample :
    loadDump personClass [("schema", .str "x")] =
      .error (.memberExists
        "schema is already a member of Person instance and cannot be overwritten") :=
  rfl

/-- Claim C6: `_id` is derived, never stored: it is
`__collection__ + "/" + _key` whenever the instance's `_key` is set and
non-null, and `None` (absent) whenever `_key` is unset or null. -/
theorem c6_id_derivation (c : RecordClass) (attrs : Dict) (cn k : String) :
    (AL.get attrs "_key" = some (.str k) → effCollection c attrs = some cn →
      Collection.idProp c attrs = .ok (some (.str (cn ++ "/" ++ k)))) ∧
    (AL.get attrs "_key" = none → Collection.idProp c attrs = .ok none) ∧
    (AL.get attrs "_key" = some .null →
      Collection.idProp c attrs = .ok none) := by
  refine ⟨?_, ?_, ?_⟩
  · intro h1 h2
    simp [Collection.idProp, h1, h2]
  · intro h1
    simp [Collection.idProp, h1]
  · intro h1
    simp [Collection.idProp, h1]

/-- Witness for C6 at `_key = "abc"` in collection `persons`, at an
unset `_key`, and at a null `_key`. -/
theorem c6_witness :
    Collection.idProp personClass [("_key", .str "abc")] =
      .ok (some (.str "persons/abc")) ∧
    Collection.idProp personClass [("name", .str "x")] = .ok none ∧
    Collection.idProp personClass [("_key", .null)] = .ok none :=
  ⟨(c6_id_derivation personClass [("_key", .str "abc")] "persons" "abc").1
      rfl rfl,
   (c6_id_derivation personClass [("name", .str "x")] "persons" "abc").2.1
      rfl,
   (c6_id_derivation personClass [("_key", .null)] "persons" "abc").2.2
      rfl⟩

/-- Claim C7, counterexample: the claim says
`_load(m, instance=existing)` yields a record whose fields are
`existing._dump()` overlaid by `m`, every field of `existing` not
mentioned in `m` surviving.  Here `existing` (built by direct
construction with `name="old"`, `_key="k1"`) dumps with `_key = "k1"`,
but the patched record comes back with `_key = None`: the identity field
does not survive the patch, because `_load` never copies `_key` from
the merged mapping (the `not hasattr` guard is defeated by `cls()`
presetting `_key`). -/
theorem c7_counterexample :
    Collection.initKw personR [("name", .str "old"), ("_key", .str "k1")] =
      [("name", .str "old"), ("_key", .str "k1")] ∧
    Collection.dump personR [("name", .str "old"), ("_key", .str "k1")] =
      .ok [("name", .str "old"), ("_key", .str "k1")] ∧
    Collection.load personR [("name", .str "new")]
      (some [("name", .str "old"), ("_key", .str "k1")]) none =
      .ok [("_key", .null), ("name", .str "new"), ("_db", .null)] :=
  ⟨rfl, rfl, rfl⟩

/-- Claim C8: whenever the schema capability's load or dump reports a
non-empty error set, `_load` and `_dump` raise a single aggregated
`RuntimeError` naming the record type and the per-field errors and
return nothing, and when the error set is empty they do not raise that
condition. -/
theorem c8_error_propagation :
    (∀ (c : RecordClass) (m : Dict), (schemaLoad c.fields m).2 ≠ [] →
      Collection.load c m none none =
        .error (.runtimeError (loadErrMsg c.name (schemaLoad c.fields m).2))) ∧
    (∀ (c : RecordClass) (attrs : Dict),
      (schemaDump c.fields attrs).2 ≠ [] →
      Collection.dump c attrs =
        .error (.runtimeError
          (dumpErrMsg c.name (schemaDump c.fields attrs).2))) ∧
    (∀ (c : RecordClass) (m : Dict), (schemaLoad c.fields m).2 = [] →
      isRuntimeError (Collection.load c m none none) = false) ∧
    (∀ (c : RecordClass) (attrs : Dict),
      (schemaDump c.fields attrs).2 = [] →
      isRuntimeError (Collection.dump c attrs) = false) := by
  refine ⟨?_, ?_, ?_, ?_⟩
  · intro c m h
    simp only [Collection.load, Collection.loadCore]
    rw [if_pos h]
  · intro c attrs h
    unfold Collection.dump
    rw [if_pos h]
  · intro c m h
    simp only [Collection.load, Collection.loadCore]
    rw [if_neg (fun hc => hc h)]
    split
    next e heq =>
      obtain ⟨s, hs⟩ := assignAll_error_member c _ _ e heq
      rw [hs]
      rfl
    next obj2 heq =>
      split
      all_goals rfl
  · intro c attrs h
    unfold Collection.dump
    rw [if_neg (fun hc => hc h)]
    rfl

/-- Witness for C8: a failing load (an integer where `Person.name` wants
a string), a failing dump (on `Picky`, whose field also validates on
dump), a clean load, and a clean dump. -/
theorem c8_witness :
    Collection.load personClass [("name", .int 5)] none none =
      .error (.runtimeError
        "Error loading object of collection Person - name: Not a valid string.") ∧
    Collection.dump pickyClass [("name", .int 5)] =
      .error (.runtimeError
        "Error dumping object of collection Picky - name: Not a valid string.") ∧
    isRuntimeError
      (Collection.load personClass [("name", .str "x")] none none) = false ∧
    isRuntimeError (Collection.dump personClass [("name", .str "x")]) =
      false :=
  ⟨c8_error_propagation.1 personClass [("name", .int 5)] (by decide),
   c8_error_propagation.2.1 pickyClass [("name", .int 5)] (by decide),
   c8_error_propagation.2.2.1 personClass [("name", .str "x")] rfl,
   c8_error_propagation.2.2.2 personClass [("name", .str "x")] rfl⟩

/-- Claim C9: dumping a record whose `_key` attribute is explicitly null
yields a mapping with no `_key` entry; and when the schema dump output
lacks `_key` but the instance has a non-null one, `_dump` adds it. -/
theorem c9_key_dump_fixups (c : RecordClass) (attrs d : Dict) (v : Value)
    (hnd : AL.nodup c.fields = true) :
    (AL.get attrs "_key" = some .null → Collection.dump c attrs = .ok d →
      AL.get d "_key" = none) ∧
    (AL.contains (schemaDump c.fields attrs).1 "_key" = false →
      AL.get attrs "_key" = some v → v ≠ .null →
      Collection.dump c attrs = .ok d → AL.get d "_key" = some v) := by
  have hku : startsUnderscore "_key" = true := rfl
  constructor
  · intro ha hd
    obtain ⟨herr, hb⟩ := Collection.dump_ok_inv c attrs d hd
    subst hb
    have h0 : AL.get (schemaDump c.fields attrs).1 "_key" = none ∨
        AL.get (schemaDump c.fields attrs).1 "_key" = some .null := by
      rcases hf : AL.get c.fields "_key" with _ | f
      · exact Or.inl (schemaDump_get_unmem c.fields attrs "_key" hf)
      · right
        have hg := schemaDumpAux_get_mem attrs c.fields [] [] "_key" f hnd hf
        simp only [ha, if_true] at hg
        exact hg
    have hfix := keyFixup_get_key_null attrs _ ha
      (schemaDump_nodup c.fields attrs) h0
    simp only [Collection.dumpBody]
    split
    · rw [dumpExtrasAux_get_skip c attrs _ _ "_key" (Or.inl hku)]
      exact hfix
    · exact hfix
  · intro hc0 ha hv hd
    obtain ⟨herr, hb⟩ := Collection.dump_ok_inv c attrs d hd
    subst hb
    have h0 : AL.get (schemaDump c.fields attrs).1 "_key" = none :=
      (AL.contains_false_iff _ "_key").mp hc0
    have hfix := keyFixup_get_key_some attrs _ v h0 ha hv
    simp only [Collection.dumpBody]
    split
    · rw [dumpExtrasAux_get_skip c attrs _ _ "_key" (Or.inl hku)]
      exact hfix
    · exact hfix

/-- Witness for C9: a `Person` with null `_key` dumps without `_key`; a
`Person` with `_key = "k"` gets it added to the schema output. -/
theorem c9_witness :
    AL.get [(("name" : String), Value.str "a")] "_key" = none ∧
    AL.get [(("name" : String), Value.str "a"), ("_key", Value.str "k")]
      "_key" = some (Value.str "k") :=
  ⟨(c9_key_dump_fixups personClass [("name", .str "a"), ("_key", .null)]
      [("name", .str "a")] (Value.str "k") (by decide)).1 rfl rfl,
   (c9_key_dump_fixups personClass [("name", .str "a"), ("_key", .str "k")]
      [("name", .str "a"), ("_key", .str "k")] (Value.str "k")
      (by decide)).2 rfl rfl (by decide) rfl⟩

/-- Claim C10: with `_allow_extra_fields = False`, `_load` drops every
input key the schema load does not produce, and `_dump` emits only
schema-produced keys (plus the `_key` handling): an undeclared
non-underscore key survives neither the loaded instance nor its dump. -/
theorem c10_extra_fields_gated (c : RecordClass) (m a d : Dict) (x : String)
    (hex : c.allowExtra = false)
    (hxf : AL.get c.fields x = none)
    (hu : startsUnderscore x = false)
    (hld : Collection.load c m none none = .ok a) :
    AL.get a x = none ∧
    (Collection.dump c a = .ok d → AL.get d x = none) := by
  have hxk : x ≠ "_key" := ne_of_not_underscore hu rfl
  have hxdb : x ≠ "_db" := ne_of_not_underscore hu rfl
  have hga : AL.get a x = none := by
    obtain ⟨obj2, herr, hassign, hget, hkey⟩ :=
      Collection.loadCore_ok_inv c m a _ hld
    have hif : (if c.allowExtra = true then
        extrasLoadAux m (schemaLoad c.fields m).1
      else (schemaLoad c.fields m).1) = (schemaLoad c.fields m).1 := by
      rw [hex]
      rfl
    rw [hif] at hassign
    rw [hget x hu]
    rw [assignAll_ok_get c _ _ obj2 x (schemaLoad_nodup c.fields m) hassign]
    rw [schemaLoad_get_unmem c.fields m x hxf]
    rw [AL.get_insert_ne _ "_db" x _ hxdb]
    rw [Collection.init_get_unmem c x hxf hxk]
    rfl
  refine ⟨hga, fun hd => ?_⟩
  obtain ⟨herr2, hb⟩ := Collection.dump_ok_inv c a d hd
  subst hb
  exact Collection.dumpBody_get_absent c a x hu hxf hga

/-- Witness for C10 on `PersonNX` (extra fields disallowed): the
undeclared key `color` is dropped by load and absent from the dump. -/
theorem c10_witness :
    AL.get [(("_key" : String), Value.null), ("name", Value.str "x"),
      ("_db", Value.null)] "color" = none ∧
    AL.get [(("name" : String), Value.str "x")] "color" = none :=
  ⟨(c10_extra_fields_gated personNX
      [("name", .str "x"), ("color", .str "blue")]
      [("_key", .null), ("name", .str "x"), ("_db", .null)]
      [("name", .str "x")] "color" rfl rfl rfl rfl).1,
   (c10_extra_fields_gated personNX
      [("name", .str "x"), ("color", .str "blue")]
      [("_key", .null), ("name", .str "x"), ("_db", .null)]
      [("name", .str "x")] "color" rfl rfl rfl rfl).2 rfl⟩

/-- Claim C4, amended: a key that does not start with an underscore and
collides with the safe list or with a callable member (such as `schema`)
does raise `MemberExistsException` naming the key and the type, with no
object returned; underscore-prefixed keys such as `_safe_list` are
filtered out by the extra-field loop before the collision check and do
not raise (see the counterexample). -/
theorem c4_collision_rejection (c : RecordClass) (x : String) (v : Value)
    (hex : c.allowExtra = true)
    (hxr : x ∈ c.safeList ∨ x ∈ c.callables)
    (hu : startsUnderscore x = false)
    (hxf : AL.get c.fields x = none)
    (hnd : AL.nodup c.fields = true)
    (hclean : ∀ nf ∈ c.fields, nf.1 ∉ c.safeList ∧ nf.1 ∉ c.callables) :
    Collection.load c [(x, v)] none none =
      .error (.memberExists (memberMsg x c.name)) := by
  have habs : ∀ nf ∈ c.fields, AL.get [(x, v)] nf.1 = none := by
    intro nf hm
    have hne : nf.1 ≠ x := AL.ne_of_get_none hxf hm
    simp [AL.get, Ne.symm hne]
  have hle : schemaLoad c.fields [(x, v)] = (schemaDefaults c.fields, []) := by
    unfold schemaLoad
    rw [schemaLoadAux_absent [(x, v)] c.fields [] [] hnd habs
      (fun nf _ => rfl)]
    rfl
  have hdef_nc : AL.contains (schemaDefaults c.fields) x = false :=
    (AL.contains_false_iff _ x).mpr (get_schemaDefaults_none c.fields x hxf)
  have hext : extrasLoadAux [(x, v)] (schemaDefaults c.fields) =
      schemaDefaults c.fields ++ [(x, v)] := by
    simp only [extrasLoadAux]
    rw [if_pos ⟨by rw [hdef_nc]; simp, by rw [hu]; simp⟩]
    exact AL.insert_of_not_contains _ x v hdef_nc
  simp only [Collection.load, Collection.loadCore]
  rw [hle]
  rw [if_neg (by simp)]
  rw [hex]
  rw [if_pos rfl]
  rw [hext]
  rw [assignAll_append_error c _ (schemaDefaults c.fields) x v
    (fun kv hm => by
      obtain ⟨nf, hnf, he⟩ := mem_schemaDefaults c.fields kv hm
      rw [← he]
      exact hclean nf hnf)
    hxr]

/-- Witness for C4 (amended) at the callable member name `schema` on
`Person`. -/
theorem c4_witness :
    Collection.load personClass [("schema", .str "x")] none none =
      .error (.memberExists
        "schema is already a member of Person instance and cannot be overwritten") :=
  c4_collision_rejection personClass "schema" (.str "x") rfl (by decide)
    rfl rfl (by decide) (by decide)

/-- Claim C5, amended: with extra fields allowed (the default), an
undeclared non-underscore key that does not collide with a reserved or
callable member passes through load and dump unchanged and unvalidated
(a colliding key such as `schema` instead raises, see the
counterexample).  Collision-freedom is implied here by the load having
succeeded. -/
theorem c5_extra_field_survival (c : RecordClass) (m a d : Dict)
    (x : String) (v : Value)
    (hex : c.allowExtra = true)
    (hu : startsUnderscore x = false)
    (hxf : AL.get c.fields x = none)
    (hmx : AL.get m x = some v)
    (hld : Collection.load c m none none = .ok a)
    (hdmp : Collection.dump c a = .ok d) :
    AL.get a x = some v ∧ AL.get d x = some v := by
  have hga : AL.get a x = some v := by
    obtain ⟨obj2, herr, hassign, hget, hkey⟩ :=
      Collection.loadCore_ok_inv c m a _ hld
    have hif : (if c.allowExtra = true then
        extrasLoadAux m (schemaLoad c.fields m).1
      else (schemaLoad c.fields m).1) =
        extrasLoadAux m (schemaLoad c.fields m).1 := by
      rw [hex]
      rfl
    rw [hif] at hassign
    have hle_none : AL.get (schemaLoad c.fields m).1 x = none :=
      schemaLoad_get_unmem c.fields m x hxf
    have hdata : AL.get (extrasLoadAux m (schemaLoad c.fields m).1) x
        = some v :=
      extrasLoadAux_get_first m _ x v hmx
        ((AL.contains_false_iff _ x).mpr hle_none) hu
    rw [hget x hu]
    rw [assignAll_ok_get c _ _ obj2 x
      (extrasLoadAux_nodup m _ (schemaLoad_nodup c.fields m)) hassign]
    rw [hdata]
    rfl
  refine ⟨hga, ?_⟩
  obtain ⟨herr2, hb⟩ := Collection.dump_ok_inv c a d hdmp
  subst hb
  exact Collection.dumpBody_get_extra c a x v hex hu hxf hga

/-- Witness for C5 (amended): the undeclared key `color` survives the
`Person` round trip unchanged. -/
theorem c5_witness :
    AL.get [(("_key" : String), Value.null), ("name", Value.str "x"),
      ("_db", Value.null), ("color", Value.str "blue")] "color" =
      some (Value.str "blue") ∧
    AL.get [(("name" : String), Value.str "x"),
      ("color", Value.str "blue")] "color" = some (Value.str "blue") :=
  c5_extra_field_survival personClass
    [("name", .str "x"), ("color", .str "blue")]
    [("_key", .null), ("name", .str "x"), ("_db", .null),
      ("color", .str "blue")]
    [("name", .str "x"), ("color", .str "blue")]
    "color" (.str "blue") rfl rfl rfl rfl rfl rfl

/-- Claim C3, amended: loading a mapping with `_from` and `_to` then
dumping yields both endpoints unchanged; loading a mapping with neither
yields a dump in which `_from` and `_to` are PRESENT WITH NULL VALUES
(not absent, as the claim said): construction seeds both endpoint
attributes to null and the dump emits any endpoint attribute the
instance has. -/
theorem c3_endpoint_passthrough (c : RecordClass) (f t : Value)
    (a d a0 d0 : Dict)
    (hff : AL.get c.fields "_from" = none)
    (hft : AL.get c.fields "_to" = none) :
    (Relation.load c [("_from", f), ("_to", t)] none none = .ok a →
      Relation.dump c a = .ok d →
      AL.get d "_from" = some f ∧ AL.get d "_to" = some t) ∧
    (Relation.load c [] none none = .ok a0 →
      Relation.dump c a0 = .ok d0 →
      AL.get d0 "_from" = some .null ∧ AL.get d0 "_to" = some .null) := by
  have hfu : startsUnderscore "_from" = true := rfl
  have htu : startsUnderscore "_to" = true := rfl
  have main : ∀ (m a d : Dict),
      Relation.load c m none none = .ok a → Relation.dump c a = .ok d →
      AL.get d "_from" = optOr (AL.get m "_from") (some .null) ∧
      AL.get d "_to" = optOr (AL.get m "_to") (some .null) := by
    intro m a d hld hdp
    obtain ⟨obj2, herr, hassign, hget, hfrom, hto⟩ :=
      Relation.relLoadCore_ok_inv c m a _ hld
    have hnd1 : AL.nodup (if c.allowExtra = true then
        extrasLoadAux m (schemaLoad c.fields m).1
      else (schemaLoad c.fields m).1) = true := by
      split
      · exact extrasLoadAux_nodup m _ (schemaLoad_nodup c.fields m)
      · exact schemaLoad_nodup c.fields m
    have hdata : ∀ (k : String), startsUnderscore k = true →
        AL.get c.fields k = none →
        AL.get (if c.allowExtra = true then
          extrasLoadAux m (schemaLoad c.fields m).1
        else (schemaLoad c.fields m).1) k = none := by
      intro k hk hkf
      split
      · rw [extrasLoadAux_get_underscore m _ k hk]
        exact schemaLoad_get_unmem c.fields m k hkf
      · exact schemaLoad_get_unmem c.fields m k hkf
    have hobj2f : AL.get obj2 "_from" = some .null := by
      rw [assignAll_ok_get c _ _ obj2 "_from" hnd1 hassign]
      rw [hdata "_from" hfu hff]
      rw [AL.get_insert_ne _ "_db" "_from" _ (by decide)]
      rw [Relation.relInit_get_from c hff]
      rfl
    have hobj2t : AL.get obj2 "_to" = some .null := by
      rw [assignAll_ok_get c _ _ obj2 "_to" hnd1 hassign]
      rw [hdata "_to" htu hft]
      rw [AL.get_insert_ne _ "_db" "_to" _ (by decide)]
      rw [Relation.relInit_get_to c hft]
      rfl
    have haf : AL.get a "_from" = optOr (AL.get m "_from") (some .null) := by
      rw [hfrom, hobj2f]
    have hat : AL.get a "_to" = optOr (AL.get m "_to") (some .null) := by
      rw [hto, hobj2t]
    obtain ⟨herr2, hb⟩ := Relation.relDump_ok_inv c a d hdp
    subst hb
    have hbf : AL.get (Collection.dumpBody c a) "_from" = none := by
      simp only [Collection.dumpBody]
      split
      · rw [dumpExtrasAux_get_skip c a _ _ "_from" (Or.inl hfu)]
        rw [keyFixup_get_ne _ _ "_from" (by decide)]
        exact schemaDump_get_unmem c.fields a "_from" hff
      · rw [keyFixup_get_ne _ _ "_from" (by decide)]
        exact schemaDump_get_unmem c.fields a "_from" hff
    have hbt : AL.get (Collection.dumpBody c a) "_to" = none := by
      simp only [Collection.dumpBody]
      split
      · rw [dumpExtrasAux_get_skip c a _ _ "_to" (Or.inl htu)]
        rw [keyFixup_get_ne _ _ "_to" (by decide)]
        exact schemaDump_get_unmem c.fields a "_to" hft
      · rw [keyFixup_get_ne _ _ "_to" (by decide)]
        exact schemaDump_get_unmem c.fields a "_to" hft
    obtain ⟨w1, hw1⟩ : ∃ w, AL.get a "_from" = some w := by
      rw [haf]
      cases AL.get m "_from" <;> exact ⟨_, rfl⟩
    obtain ⟨w2, hw2⟩ : ∃ w, AL.get a "_to" = some w := by
      rw [hat]
      cases AL.get m "_to" <;> exact ⟨_, rfl⟩
    obtain ⟨hd1, hd2⟩ := Relation.dumpFromTo_get a _ w1 w2 hbf hbt hw1 hw2
    constructor
    · rw [hd1, ← hw1, haf]
    · rw [hd2, ← hw2, hat]
  constructor
  · intro h1 h2
    obtain ⟨p1, p2⟩ := main [("_from", f), ("_to", t)] a d h1 h2
    exact ⟨p1, p2⟩
  · intro h1 h2
    obtain ⟨p1, p2⟩ := main [] a0 d0 h1 h2
    exact ⟨p1, p2⟩

/-- Witness for C3 (amended) on `Likes(Relation)` at endpoints
`users/1`, `users/2`, and at the empty mapping. -/
theorem c3_witness :
    AL.get [(("_from" : String), Value.str "users/1"),
      ("_to", Value.str "users/2")] "_from" = some (Value.str "users/1") ∧
    AL.get [(("_from" : String), Value.str "users/1"),
      ("_to", Value.str "users/2")] "_to" = some (Value.str "users/2") ∧
    AL.get [(("_from" : String), Value.null), ("_to", Value.null)]
      "_from" = some Value.null ∧
    AL.get [(("_from" : String), Value.null), ("_to", Value.null)]
      "_to" = some Value.null :=
  ⟨((c3_endpoint_passthrough likesClass (.str "users/1") (.str "users/2")
      [("_collections_from", .null), ("_collections_to", .null),
       ("_from", .str "users/1"), ("_to", .str "users/2"),
       ("_object_from", .null), ("_object_to", .null), ("_key", .null),
       ("_db", .null)]
      [("_from", .str "users/1"), ("_to", .str "users/2")]
      [("_collections_from", .null), ("_collections_to", .null),
       ("_from", .null), ("_to", .null), ("_object_from", .null),
       ("_object_to", .null), ("_key", .null), ("_db", .null)]
      [("_from", .null), ("_to", .null)] rfl rfl).1 rfl rfl).1,
   ((c3_endpoint_passthrough likesClass (.str "users/1") (.str "users/2")
      [("_collections_from", .null), ("_collections_to", .null),
       ("_from", .str "users/1"), ("_to", .str "users/2"),
       ("_object_from", .null), ("_object_to", .null), ("_key", .null),
       ("_db", .null)]
      [("_from", .str "users/1"), ("_to", .str "users/2")]
      [("_collections_from", .null), ("_collections_to", .null),
       ("_from", .null), ("_to", .null), ("_object_from", .null),
       ("_object_to", .null), ("_key", .null), ("_db", .null)]
      [("_from", .null), ("_to", .null)] rfl rfl).1 rfl rfl).2,
   ((c3_endpoint_passthrough likesClass (.str "users/1") (.str "users/2")
      [("_collections_from", .null), ("_collections_to", .null),
       ("_from", .str "users/1"), ("_to", .str "users/2"),
       ("_object_from", .null), ("_object_to", .null), ("_key", .null),
       ("_db", .null)]
      [("_from", .str "users/1"), ("_to", .str "users/2")]
      [("_collections_from", .null), ("_collections_to", .null),
       ("_from", .null), ("_to", .null), ("_object_from", .null),
       ("_object_to", .null), ("_key", .null), ("_db", .null)]
      [("_from", .null), ("_to", .null)] rfl rfl).2 rfl rfl).1,
   ((c3_endpoint_passthrough likesClass (.str "users/1") (.str "users/2")
      [("_collections_from", .null), ("_collections_to", .null),
       ("_from", .str "users/1"), ("_to", .str "users/2"),
       ("_object_from", .null), ("_object_to", .null), ("_key", .null),
       ("_db", .null)]
      [("_from", .str "users/1"), ("_to", .str "users/2")]
      [("_collections_from", .null), ("_collections_to", .null),
       ("_from", .null), ("_to", .null), ("_object_from", .null),
       ("_object_to", .null), ("_key", .null), ("_db", .null)]
      [("_from", .null), ("_to", .null)] rfl rfl).2 rfl rfl).2⟩

/-- Claim C7, amended: for pass-through fields (load conversion is the
identity, as with marshmallow's `Raw`), patching an existing record via
`_load(m, instance=existing)` makes every NON-UNDERSCORE field of the
result `existing._dump()` overlaid by `m` with `m` winning — but the
identity field `_key` does NOT survive the patch: the result's `_key` is
always null, because `_load` never copies `_key` from the merged mapping
(see the counterexample). -/
theorem c7_patch_overlay (c : RecordClass) (existing m dE a : Dict)
    (htrans : ∀ nf ∈ c.fields, ∀ v, nf.2.loadConv v = Except.ok v)
    (hnd : AL.nodup c.fields = true)
    (hex : c.allowExtra = true)
    (hkf : AL.get c.fields "_key" = none)
    (hcov : ∀ nf ∈ c.fields, AL.contains existing nf.1 = true)
    (hnm : AL.nodup m = true)
    (hdE : Collection.dump c existing = .ok dE)
    (hld : Collection.load c m (some existing) none = .ok a) :
    (∀ x, startsUnderscore x = false →
      AL.get a x = optOr (AL.get m x) (AL.get dE x)) ∧
    AL.get a "_key" = some Value.null := by
  simp only [Collection.load, hdE] at hld
  obtain ⟨obj2, herr, hassign, hget, hkey⟩ :=
    Collection.loadCore_ok_inv c (AL.insertAll dE m) a _ hld
  have hif : (if c.allowExtra = true then
      extrasLoadAux (AL.insertAll dE m)
        (schemaLoad c.fields (AL.insertAll dE m)).1
    else (schemaLoad c.fields (AL.insertAll dE m)).1) =
      extrasLoadAux (AL.insertAll dE m)
        (schemaLoad c.fields (AL.insertAll dE m)).1 := by
    rw [hex]
    rfl
  rw [hif] at hassign
  have hndData : AL.nodup (extrasLoadAux (AL.insertAll dE m)
      (schemaLoad c.fields (AL.insertAll dE m)).1) = true :=
    extrasLoadAux_nodup _ _ (schemaLoad_nodup _ _)
  have hin_get : ∀ k, AL.get (AL.insertAll dE m) k =
      optOr (AL.get m k) (AL.get dE k) :=
    fun k => AL.get_insertAll dE m k hnm
  constructor
  · intro x hux
    have hxk : x ≠ "_key" := ne_of_not_underscore hux rfl
    have hxdb : x ≠ "_db" := ne_of_not_underscore hux rfl
    rw [hget x hux]
    rw [assignAll_ok_get c _ _ obj2 x hndData hassign]
    rcases hf : AL.get c.fields x with _ | fx
    · have hle : AL.get (schemaLoad c.fields (AL.insertAll dE m)).1 x =
          none := schemaLoad_get_unmem c.fields _ x hf
      rcases hix : AL.get (AL.insertAll dE m) x with _ | vx
      · rw [extrasLoadAux_get_none _ _ x hix, hle]
        rw [AL.get_insert_ne _ "_db" x _ hxdb,
          Collection.init_get_unmem c x hf hxk]
        rw [← hin_get x, hix]
        rfl
      · rw [extrasLoadAux_get_first _ _ x vx hix
          ((AL.contains_false_iff _ x).mpr hle) hux]
        rw [← hin_get x, hix]
        rfl
    · have hmem : (x, fx) ∈ c.fields := AL.mem_of_get hf
      obtain ⟨herrD, hbD⟩ := Collection.dump_ok_inv c existing dE hdE
      have hcont : AL.contains dE x = true := by
        rw [hbD]
        exact Collection.dumpBody_contains_declared c existing x fx hnd hux
          hf (hcov (x, fx) hmem) herrD
      obtain ⟨w, hw⟩ := (AL.contains_true_iff dE x).mp hcont
      obtain ⟨u, hu⟩ : ∃ u, AL.get (AL.insertAll dE m) x = some u := by
        rw [hin_get x, hw]
        cases AL.get m x <;> exact ⟨_, rfl⟩
      have hle : AL.get (schemaLoad c.fields (AL.insertAll dE m)).1 x =
          some u := by
        have hg := schemaLoadAux_get_mem (AL.insertAll dE m) c.fields [] []
          x fx hnd hf
        simp only [hu] at hg
        rw [htrans (x, fx) hmem u] at hg
        exact hg
      rw [extrasLoadAux_get_preserved _ _ x
        (by unfold AL.contains; rw [hle]; rfl)]
      rw [hle, ← hin_get x, hu]
      rfl
  · have hobj2k : AL.get obj2 "_key" = some Value.null := by
      rw [assignAll_ok_get c _ _ obj2 "_key" hndData hassign]
      rw [extrasLoadAux_get_underscore _ _ "_key" rfl]
      rw [schemaLoad_get_unmem c.fields _ "_key" hkf]
      rw [AL.get_insert_ne _ "_db" "_key" _ (by decide)]
      rw [Collection.init_get_key c hkf]
      rfl
    rw [hkey (by unfold AL.contains; rw [hobj2k]; rfl), hobj2k]

/-- Witness for C7 (amended) on `PersonR`: patching
`existing = (name: "old", _key: "k1")` with `(name: "new")` updates
`name`, and the result's `_key` is null. -/
theorem c7_witness :
    AL.get [(("_key" : String), Value.null), ("name", Value.str "new"),
      ("_db", Value.null)] "name" = some (Value.str "new") ∧
    AL.get [(("_key" : String), Value.null), ("name", Value.str "new"),
      ("_db", Value.null)] "_key" = some Value.null :=
  ⟨(c7_patch_overlay personR [("name", .str "old"), ("_key", .str "k1")]
      [("name", .str "new")]
      [("name", .str "old"), ("_key", .str "k1")]
      [("_key", .null), ("name", .str "new"), ("_db", .null)]
      (by intro nf hm v
          rw [List.mem_singleton.mp hm]
          rfl)
      (by decide) rfl rfl (by decide) (by decide) rfl rfl).1 "name" rfl,
   (c7_patch_overlay personR [("name", .str "old"), ("_key", .str "k1")]
      [("name", .str "new")]
      [("name", .str "old"), ("_key", .str "k1")]
      [("_key", .null), ("name", .str "new"), ("_db", .null)]
      (by intro nf hm v
          rw [List.mem_singleton.mp hm]
          rfl)
      (by decide) rfl rfl (by decide) (by decide) rfl rfl).2⟩

end ArangoOrm
